import Mathlib

set_option linter.unusedVariables false
set_option linter.unreachableTactic false
set_option linter.unusedTactic false
set_option linter.unnecessarySeqFocus false

/- Shallow embedding of the Mini Motorways RL environment
   (src/mini_motorways_env.h, src/mini_motorways_env.cpp).

   Machine integers of the source (C++ int) are modelled as Int; the
   counters involved stay far below any overflow bound.  The float values
   produced by the observation encoder and the visual-animation fields are
   modelled as exact rationals: no claim depends on rounding.  The two
   sources of randomness (uniform grid coordinates for building placement
   and the spawn roll spawn_dist(rng) < 0.3f) are modelled as explicit
   oracle streams carried in the state. -/

/- enum class TileType (mini_motorways_env.h). -/
inductive TileType where
  | EMPTY
  | HOUSE
  | BUSINESS
  | ROAD
  | MOTORWAY
  | BRIDGE
  | ROUNDABOUT
  | TRAFFIC_LIGHT
deriving DecidableEq, Repr

/- Numeric value of the TileType enumerator, used by the observation encoder. -/
def TileType.code : TileType → Int
  | .EMPTY => 0
  | .HOUSE => 1
  | .BUSINESS => 2
  | .ROAD => 3
  | .MOTORWAY => 4
  | .BRIDGE => 5
  | .ROUNDABOUT => 6
  | .TRAFFIC_LIGHT => 7

/- enum class CarColor (mini_motorways_env.h). -/
inductive CarColor where
  | RED
  | BLUE
  | GREEN
  | YELLOW
  | PURPLE
  | ORANGE
deriving DecidableEq, Repr

/- struct Position (mini_motorways_env.h). -/
structure Position where
  x : Int
  y : Int
deriving DecidableEq, Repr

/- Read grid[y][x] from a vector<vector<TileType>>; the source always
   bounds-checks before indexing, so the default is never observable. -/
def gridGet (grid : List (List TileType)) (x y : Int) : TileType :=
  (grid.getD y.toNat []).getD x.toNat .EMPTY

/- Write grid[y][x] = t. -/
def gridSet (grid : List (List TileType)) (x y : Int) (t : TileType) :
    List (List TileType) :=
  grid.set y.toNat ((grid.getD y.toNat []).set x.toNat t)

/- The passability test of PathFinder::find_path; the identical tile list
   appears in MiniMotorwaysEnvironment::can_move_to. -/
def passableTile (t : TileType) : Bool :=
  t == .ROAD || t == .MOTORWAY || t == .BRIDGE || t == .ROUNDABOUT ||
    t == .TRAFFIC_LIGHT || t == .HOUSE || t == .BUSINESS

/- PathFinder::calculate_distance: Manhattan distance. -/
def calculate_distance (a b : Position) : Int :=
  ((a.x - b.x).natAbs : Int) + ((a.y - b.y).natAbs : Int)

/- PathFinder::Node (mini_motorways_env.h). -/
structure Node where
  pos : Position
  g_cost : Int
  h_cost : Int
  parent : Position
deriving DecidableEq, Repr

def Node.f_cost (n : Node) : Int := n.g_cost + n.h_cost

/- Extraction of a minimum f_cost element, modelling the pop of the
   std::priority_queue ordered by NodeComparator (a.f_cost() > b.f_cost()).
   Among equal f_cost values the C++ heap order is unspecified; this model
   takes the leftmost minimum, one legal linearization.  No verified claim
   depends on the tie order. -/
def popMin : List Node → Option (Node × List Node)
  | [] => none
  | n :: ns =>
    match popMin ns with
    | none => some (n, [])
    | some (m, rest) =>
      if n.f_cost ≤ m.f_cost then some (n, ns) else some (m, n :: rest)

/- The neighbour offsets iterated by find_path, in source order. -/
def directions : List Position := [⟨0, 1⟩, ⟨1, 0⟩, ⟨0, -1⟩, ⟨-1, 0⟩]

/- The mutable search state of PathFinder::find_path. -/
structure AStar where
  open_set : List Node
  closed_set : Position → Bool
  came_from : Position → Option Position
  g_score : Position → Option Int

/- Body of the neighbour loop of find_path for a single direction:
   bounds check against grid.size()/grid[0].size(), closed-set check,
   passability check, then relaxation with push on improvement. -/
def relaxDir (grid : List (List TileType)) (goal cur : Position) (a : AStar)
    (dir : Position) : AStar :=
  let neighbor : Position := ⟨cur.x + dir.x, cur.y + dir.y⟩
  if neighbor.x < 0 ∨ (((grid.getD 0 []).length : Int) ≤ neighbor.x)
      ∨ neighbor.y < 0 ∨ ((grid.length : Int) ≤ neighbor.y) then a
  else if a.closed_set neighbor then a
  else if passableTile (gridGet grid neighbor.x neighbor.y) = false then a
  else
    let tentative_g : Int := (a.g_score cur).getD 0 + 1
    let better : Bool :=
      match a.g_score neighbor with
      | none => true
      | some v => decide (tentative_g < v)
    if better then
      { open_set :=
          (⟨neighbor, tentative_g, calculate_distance neighbor goal, cur⟩ : Node)
            :: a.open_set,
        closed_set := a.closed_set,
        came_from := fun p => if p = neighbor then some cur else a.came_from p,
        g_score := fun p => if p = neighbor then some tentative_g else a.g_score p }
    else a

/- The while loop of PathFinder::find_path.  The source loop terminates on
   every run; the model makes this explicit with a fuel argument, and the
   development proves that astarFuel below is always enough fuel.
   Result: none = fuel ran out (never happens with astarFuel);
   some none = frontier exhausted, no path; some (some cf) = goal popped,
   cf is the came_from map handed to reconstruct_path. -/
def astarLoop (grid : List (List TileType)) (goal : Position) :
    Nat → AStar → Option (Option (Position → Option Position))
  | 0, _ => none
  | fuel + 1, a =>
    match popMin a.open_set with
    | none => some none
    | some (current, rest) =>
      if current.pos = goal then some (some a.came_from)
      else
        let a1 : AStar :=
          { open_set := rest,
            closed_set := fun p => if p = current.pos then true else a.closed_set p,
            came_from := a.came_from,
            g_score := a.g_score }
        astarLoop grid goal fuel (directions.foldl (relaxDir grid goal current.pos) a1)

/- Fuel that the development proves sufficient for astarLoop on the given
   grid (each fresh expansion closes one in-bounds cell and pushes at most
   four nodes; stale pops push nothing). -/
def astarFuel (grid : List (List TileType)) : Nat :=
  5 * (grid.length * (grid.getD 0 []).length + 1) + 2

/- The while loop of PathFinder::reconstruct_path: walk the came_from
   chain from goal back to start, building the path front-to-back.  The
   fuel makes the walk total; the development proves astarFuel is enough
   for every map the search produces. -/
def reconstruct_loop (came_from : Position → Option Position) (start : Position) :
    Nat → Position → List Position → List Position
  | 0, _, acc => acc
  | fuel + 1, current, acc =>
    if current = start then acc
    else
      match came_from current with
      | none => current :: acc
      | some p => reconstruct_loop came_from start fuel p (current :: acc)

/- PathFinder::reconstruct_path. -/
def reconstruct_path (came_from : Position → Option Position)
    (start goal : Position) (fuel : Nat) : List Position :=
  start :: reconstruct_loop came_from start fuel goal []

/- PathFinder::find_path. -/
def find_path (start goal : Position) (grid : List (List TileType)) :
    List Position :=
  let start_node : Node := ⟨start, 0, calculate_distance start goal, ⟨0, 0⟩⟩
  let init : AStar :=
    { open_set := [start_node],
      closed_set := fun _ => false,
      came_from := fun _ => none,
      g_score := fun p => if p = start then some 0 else none }
  match astarLoop grid goal (astarFuel grid) init with
  | some (some cf) => reconstruct_path cf start goal (astarFuel grid)
  | _ => []

/- struct Car (mini_motorways_env.h). -/
structure Car where
  position : Position
  destination : Position
  color : CarColor
  path : List Position
  stuck_time : Int
  completed : Bool
  visual_x : ℚ
  visual_y : ℚ
  speed : ℚ
deriving DecidableEq, Repr

/- Car constructor. -/
def mkCar (pos dest : Position) (col : CarColor) : Car :=
  { position := pos, destination := dest, color := col, path := [],
    stuck_time := 0, completed := false,
    visual_x := (pos.x : ℚ), visual_y := (pos.y : ℚ), speed := 1 / 10 }

/- struct Building (mini_motorways_env.h). -/
structure Building where
  position : Position
  color : CarColor
  type : TileType
  cars_spawned : Int
  max_cars : Int
deriving DecidableEq, Repr

/- Building constructor. -/
def mkBuilding (pos : Position) (col : CarColor) (t : TileType) : Building :=
  { position := pos, color := col, type := t, cars_spawned := 0, max_cars := 5 }

/- The resource map; the source keeps these six entries in an
   unordered_map keyed by fixed string literals. -/
structure Resources where
  roads : Int
  motorways : Int
  bridges : Int
  roundabouts : Int
  traffic_lights : Int
  upgrades : Int
deriving DecidableEq, Repr

/- The resource values installed by the constructor and by reset(). -/
def initialResources : Resources :=
  { roads := 20, motorways := 3, bridges := 2, roundabouts := 1,
    traffic_lights := 2, upgrades := 1 }

/- Oracle streams for the two random draws: coordinate pairs drawn by
   position_dist_x/position_dist_y (each uniform on 0..19, hence Fin 20)
   and the boolean outcome of spawn_dist(rng) < 0.3f. -/
structure Rng where
  coords : List (Fin 20 × Fin 20)
  rolls : List Bool
deriving DecidableEq, Repr

def Rng.drawCoord (r : Rng) : (Fin 20 × Fin 20) × Rng :=
  (r.coords.getD 0 (⟨0, by decide⟩, ⟨0, by decide⟩), { r with coords := r.coords.tail })

def Rng.drawRoll (r : Rng) : Bool × Rng :=
  (r.rolls.getD 0 false, { r with rolls := r.rolls.tail })

/- The simulation state owned by MiniMotorwaysEnvironment (the window,
   renderer and pathfinder handles carry no simulation state). -/
structure EnvState where
  grid : List (List TileType)
  cars : List Car
  buildings : List Building
  resources : Resources
  score : Int
  current_step : Int
  game_over : Bool
  congestion_penalty : Int
  rng : Rng
deriving DecidableEq, Repr

def GRID_WIDTH : Int := 20
def GRID_HEIGHT : Int := 20
def MAX_STEPS : Int := 1000

/- MiniMotorwaysEnvironment::is_valid_position. -/
def is_valid_position (pos : Position) : Bool :=
  decide (0 ≤ pos.x ∧ pos.x < GRID_WIDTH ∧ 0 ≤ pos.y ∧ pos.y < GRID_HEIGHT)

/- MiniMotorwaysEnvironment::can_move_to; its tile list is identical to
   passableTile. -/
def can_move_to (grid : List (List TileType)) (pos : Position) : Bool :=
  is_valid_position pos && passableTile (gridGet grid pos.x pos.y)

/- MiniMotorwaysEnvironment::execute_action.  Returns the bool result
   together with the successor state. -/
def execute_action (s : EnvState) (action_type x y : Int) : Bool × EnvState :=
  if is_valid_position ⟨x, y⟩ = false then (false, s)
  else if action_type = 0 then
    if s.resources.roads > 0 ∧ gridGet s.grid x y = .EMPTY then
      (true, { s with grid := gridSet s.grid x y .ROAD,
                      resources := { s.resources with roads := s.resources.roads - 1 } })
    else (false, s)
  else if action_type = 1 then
    if s.resources.motorways > 0 ∧ gridGet s.grid x y = .EMPTY then
      (true, { s with grid := gridSet s.grid x y .MOTORWAY,
                      resources := { s.resources with motorways := s.resources.motorways - 1 } })
    else (false, s)
  else if action_type = 2 then
    if s.resources.bridges > 0 ∧ gridGet s.grid x y = .EMPTY then
      (true, { s with grid := gridSet s.grid x y .BRIDGE,
                      resources := { s.resources with bridges := s.resources.bridges - 1 } })
    else (false, s)
  else if action_type = 3 then
    if s.resources.roundabouts > 0 ∧ gridGet s.grid x y = .EMPTY then
      (true, { s with grid := gridSet s.grid x y .ROUNDABOUT,
                      resources := { s.resources with roundabouts := s.resources.roundabouts - 1 } })
    else (false, s)
  else if action_type = 4 then
    if s.resources.traffic_lights > 0 ∧ gridGet s.grid x y = .ROAD then
      (true, { s with grid := gridSet s.grid x y .TRAFFIC_LIGHT,
                      resources := { s.resources with traffic_lights := s.resources.traffic_lights - 1 } })
    else (false, s)
  else if action_type = 5 then
    if gridGet s.grid x y = .ROAD then
      (true, { s with grid := gridSet s.grid x y .EMPTY,
                      resources := { s.resources with roads := s.resources.roads + 1 } })
    else if gridGet s.grid x y = .MOTORWAY then
      (true, { s with grid := gridSet s.grid x y .EMPTY,
                      resources := { s.resources with motorways := s.resources.motorways + 1 } })
    else (false, s)
  else (false, s)

/- The per-vehicle body of MiniMotorwaysEnvironment::simulate_traffic.
   Returns the updated car, the score increment and the congestion
   increment contributed by this car. -/
def simulate_traffic_car (grid : List (List TileType)) (car : Car) :
    Car × Int × Int :=
  if car.completed then (car, 0, 0)
  else
    let path0 :=
      if car.path.isEmpty then find_path car.position car.destination grid
      else car.path
    if 1 < path0.length then
      let next_pos := path0.getD 1 ⟨0, 0⟩
      if can_move_to grid next_pos then
        let car1 : Car :=
          { car with position := next_pos, path := path0.tail, stuck_time := 0,
                     visual_x := car.visual_x + ((next_pos.x : ℚ) - car.visual_x) * car.speed,
                     visual_y := car.visual_y + ((next_pos.y : ℚ) - car.visual_y) * car.speed }
        if car1.position = car1.destination then
          ({ car1 with completed := true }, 1, 0)
        else (car1, 0, 0)
      else
        ({ car with path := path0, stuck_time := car.stuck_time + 1 }, 0,
          if car.stuck_time + 1 > 10 then 1 else 0)
    else ({ car with path := path0 }, 0, 0)

/- The loop of simulate_traffic over the car collection; each car is
   processed independently (can_move_to never consults other cars). -/
def simulate_cars (grid : List (List TileType)) : List Car → List Car × Int × Int
  | [] => ([], 0, 0)
  | c :: cs =>
    let r := simulate_traffic_car grid c
    let rs := simulate_cars grid cs
    (r.1 :: rs.1, r.2.1 + rs.2.1, r.2.2 + rs.2.2)

/- MiniMotorwaysEnvironment::simulate_traffic, including the final
   removal of completed cars. -/
def simulate_traffic (s : EnvState) : EnvState :=
  let r := simulate_cars s.grid s.cars
  { s with cars := r.1.filter (fun c => !c.completed),
           score := s.score + r.2.1,
           congestion_penalty := s.congestion_penalty + r.2.2 }

/- Search of the Building registry for the first Business of the given
   color (the inner loop of spawn_cars). -/
def find_matching_business (bs : List Building) (col : CarColor) : Option Building :=
  bs.find? (fun b => b.type == .BUSINESS && b.color == col)

/- The outer loop of spawn_cars, iterating the building registry by index
   (only cars_spawned of the visited house is ever mutated, so the index
   walk matches the source's in-place iteration).  The spawn roll is drawn
   only when the first two conditions hold, mirroring the shortcircuiting
   of the source's conjunction. -/
def spawn_cars_loop :
    Nat → Nat → List Building → List Car → Rng → List Building × List Car × Rng
  | 0, _, bs, cars, rng => (bs, cars, rng)
  | n + 1, i, bs, cars, rng =>
    match bs[i]? with
    | none => (bs, cars, rng)
    | some b =>
      if b.type = .HOUSE ∧ b.cars_spawned < b.max_cars then
        let d := rng.drawRoll
        if d.1 then
          match find_matching_business bs b.color with
          | some business =>
            spawn_cars_loop n (i + 1)
              (bs.set i { b with cars_spawned := b.cars_spawned + 1 })
              (cars ++ [mkCar b.position business.position b.color]) d.2
          | none => spawn_cars_loop n (i + 1) bs cars d.2
        else spawn_cars_loop n (i + 1) bs cars d.2
      else spawn_cars_loop n (i + 1) bs cars rng

/- MiniMotorwaysEnvironment::spawn_cars. -/
def spawn_cars (s : EnvState) : EnvState :=
  if s.current_step % 5 = 0 then
    let r := spawn_cars_loop s.buildings.length 0 s.buildings s.cars s.rng
    { s with buildings := r.1, cars := r.2.1, rng := r.2.2 }
  else s

/- MiniMotorwaysEnvironment::check_game_over. -/
def total_resources (r : Resources) : Int :=
  r.roads + r.motorways + r.bridges + r.roundabouts + r.traffic_lights + r.upgrades

def check_game_over (s : EnvState) : Bool :=
  let stuck_cars := (s.cars.filter (fun c => c.stuck_time > 20)).length
  if stuck_cars > 10 then true
  else if total_resources s.resources = 0 ∧ s.cars.length > 15 then true
  else if s.current_step ≥ MAX_STEPS then true
  else false

/- MiniMotorwaysEnvironment::get_observation, with float arithmetic
   carried out exactly in ℚ. -/
def get_observation (s : EnvState) : List ℚ :=
  let gridLayer : List ℚ :=
    ((List.range 20).map fun y =>
      (List.range 20).map fun x =>
        ((gridGet s.grid (x : Int) (y : Int)).code : ℚ) / 7).flatten
  let densityLayer : List ℚ :=
    ((List.range 20).map fun y =>
      (List.range 20).map fun x =>
        min (((s.cars.filter fun c =>
          c.position.x = (x : Int) ∧ c.position.y = (y : Int)).length : ℚ) / 5) 1).flatten
  gridLayer ++ densityLayer ++
    [(s.resources.roads : ℚ) / 20, (s.resources.motorways : ℚ) / 3,
     (s.resources.bridges : ℚ) / 2, (s.resources.roundabouts : ℚ) / 1,
     (s.resources.traffic_lights : ℚ) / 2, (s.resources.upgrades : ℚ) / 1] ++
    [(s.score : ℚ) / 100, (s.cars.length : ℚ) / 50,
     (s.congestion_penalty : ℚ) / 100, (s.current_step : ℚ) / (MAX_STEPS : ℚ)]

/- MiniMotorwaysEnvironment::find_empty_position (up to 100 attempts). -/
def find_empty_position (grid : List (List TileType)) :
    Nat → Rng → Position × Rng
  | 0, rng => (⟨-1, -1⟩, rng)
  | attempts + 1, rng =>
    let d := rng.drawCoord
    let x : Int := (d.1.1 : Nat)
    let y : Int := (d.1.2 : Nat)
    if gridGet grid x y = .EMPTY then (⟨x, y⟩, d.2)
    else find_empty_position grid attempts d.2

/- Placement of one building inside spawn_initial_buildings. -/
def place_building (t : TileType) (col : CarColor) (s : EnvState) : EnvState :=
  let r := find_empty_position s.grid 100 s.rng
  if r.1.x ≠ -1 then
    { s with rng := r.2,
             buildings := s.buildings ++ [mkBuilding r.1 col t],
             grid := gridSet s.grid r.1.x r.1.y t }
  else { s with rng := r.2 }

/- MiniMotorwaysEnvironment::spawn_initial_buildings: three houses
   coloured RED, BLUE, GREEN, then two businesses coloured RED, BLUE. -/
def spawn_initial_buildings (s : EnvState) : EnvState :=
  place_building .BUSINESS .BLUE
    (place_building .BUSINESS .RED
      (place_building .HOUSE .GREEN
        (place_building .HOUSE .BLUE
          (place_building .HOUSE .RED s))))

/- The empty 20-by-20 grid installed by reset(). -/
def emptyGrid : List (List TileType) :=
  List.replicate 20 (List.replicate 20 .EMPTY)

/- MiniMotorwaysEnvironment::reset, as a function of the random stream. -/
def resetEnv (rng : Rng) : EnvState :=
  spawn_initial_buildings
    { grid := emptyGrid, cars := [], buildings := [],
      resources := initialResources, score := 0, current_step := 0,
      game_over := false, congestion_penalty := 0, rng := rng }

/- MiniMotorwaysEnvironment::step.  Returns the successor state and the
   observation the call hands back. -/
def step (s : EnvState) (action : List Int) : EnvState × List ℚ :=
  if s.game_over = true ∨ action.length ≠ 3 then (s, get_observation s)
  else
    let s1 : EnvState := { s with current_step := s.current_step + 1 }
    let s2 : EnvState :=
      if action.getD 0 0 < 6 then
        (execute_action s1 (action.getD 0 0) (action.getD 1 0) (action.getD 2 0)).2
      else s1
    let s3 := simulate_traffic s2
    let s4 := spawn_cars s3
    let s5 : EnvState := { s4 with game_over := check_game_over s4 }
    (s5, get_observation s5)

/- Iterated execute_action calls (for the resource-ledger claims). -/
def applyActions (s : EnvState) : List (Int × Int × Int) → EnvState
  | [] => s
  | a :: rest => applyActions (execute_action s a.1 a.2.1 a.2.2).2 rest

/- Iterated step calls (for the whole-episode claims). -/
def applySteps (s : EnvState) : List (List Int) → EnvState
  | [] => s
  | a :: rest => applySteps (step s a).1 rest

/- A convenient concrete state for witnesses: the post-constructor state
   before any building spawn. -/
def sampleState : EnvState :=
  { grid := emptyGrid, cars := [], buildings := [], resources := initialResources,
    score := 0, current_step := 0, game_over := false, congestion_penalty := 0,
    rng := { coords := [], rolls := [] } }

lemma get_observation_length (s : EnvState) : (get_observation s).length = 810 := by
  simp [get_observation, List.length_flatten, List.map_map, Function.comp_def,
    List.map_const]

/-- C8: every observation returned by reset() or step() has length exactly
810 (400 grid values, 400 density values, 6 resource values, 4 scalars). -/
theorem C8_observation_length :
    (∀ rng : Rng, (get_observation (resetEnv rng)).length = 810) ∧
    (∀ (s : EnvState) (action : List Int), ((step s action).2).length = 810) := by
  constructor
  · intro rng; exact get_observation_length _
  · intro s action
    unfold step
    split
    · exact get_observation_length _
    · exact get_observation_length _

/-- C4: if the terminal flag is set or the action tuple is malformed
(arity other than 3), step runs no sub-phase, leaves the state unchanged
and returns the observation of the current state. -/
theorem C4_terminal_noop (s : EnvState) (action : List Int)
    (h : s.game_over = true ∨ action.length ≠ 3) :
    step s action = (s, get_observation s) := by
  unfold step
  rw [if_pos h]

theorem C4_terminal_noop_witness :
    step { sampleState with game_over := true } [0, 1, 2] =
      ({ sampleState with game_over := true },
        get_observation { sampleState with game_over := true }) :=
  C4_terminal_noop { sampleState with game_over := true } [0, 1, 2] (Or.inl rfl)

/-- C2: the termination evaluator, run once per step after movement and
spawning, reports terminal iff more than 10 active vehicles have stuck
duration above 20, or the six resource counts sum to 0 with more than 15
active vehicles, or the step counter has reached 1000. -/
theorem C2_termination_evaluator :
    (∀ s : EnvState,
      check_game_over s = true ↔
        10 < (s.cars.filter fun c => c.stuck_time > 20).length ∨
          (total_resources s.resources = 0 ∧ 15 < s.cars.length) ∨
          1000 ≤ s.current_step) ∧
    (∀ (s : EnvState) (action : List Int),
      s.game_over = false → action.length = 3 →
      (step s action).1.game_over =
        check_game_over (spawn_cars (simulate_traffic
          (if action.getD 0 0 < 6 then
            (execute_action { s with current_step := s.current_step + 1 }
              (action.getD 0 0) (action.getD 1 0) (action.getD 2 0)).2
          else { s with current_step := s.current_step + 1 })))) := by
  constructor
  · intro s
    unfold check_game_over MAX_STEPS
    split_ifs <;> simp_all
  · intro s action hg hlen
    unfold step
    rw [if_neg (by simp [hg, hlen])]

theorem C2_termination_evaluator_witness :
    (check_game_over sampleState = true ↔
      10 < (sampleState.cars.filter fun c => c.stuck_time > 20).length ∨
        (total_resources sampleState.resources = 0 ∧ 15 < sampleState.cars.length) ∨
        1000 ≤ sampleState.current_step) ∧
    (step sampleState [7, 0, 0]).1.game_over =
      check_game_over (spawn_cars (simulate_traffic
        (if ([7, 0, 0] : List Int).getD 0 0 < 6 then
          (execute_action { sampleState with current_step := sampleState.current_step + 1 }
            (([7, 0, 0] : List Int).getD 0 0) (([7, 0, 0] : List Int).getD 1 0)
            (([7, 0, 0] : List Int).getD 2 0)).2
        else { sampleState with current_step := sampleState.current_step + 1 }))) :=
  ⟨C2_termination_evaluator.1 sampleState,
    C2_termination_evaluator.2 sampleState [7, 0, 0] rfl rfl⟩

/- Non-negativity of all six ledger entries. -/
def ResNonneg (r : Resources) : Prop :=
  0 ≤ r.roads ∧ 0 ≤ r.motorways ∧ 0 ≤ r.bridges ∧ 0 ≤ r.roundabouts ∧
    0 ≤ r.traffic_lights ∧ 0 ≤ r.upgrades

lemma execute_action_nonneg (s : EnvState) (k x y : Int)
    (h : ResNonneg s.resources) : ResNonneg ((execute_action s k x y).2).resources := by
  unfold execute_action
  unfold ResNonneg at h ⊢
  split_ifs <;> dsimp only <;> omega

lemma applyActions_nonneg (acts : List (Int × Int × Int)) :
    ∀ s : EnvState, ResNonneg s.resources →
      ResNonneg (applyActions s acts).resources := by
  induction acts with
  | nil => intro s h; exact h
  | cons a rest ih =>
    intro s h
    exact ih _ (execute_action_nonneg s a.1 a.2.1 a.2.2 h)

lemma place_building_resources (t : TileType) (col : CarColor) (s : EnvState) :
    (place_building t col s).resources = s.resources := by
  unfold place_building
  dsimp only
  split <;> rfl

lemma resetEnv_resources (rng : Rng) : (resetEnv rng).resources = initialResources := by
  unfold resetEnv spawn_initial_buildings
  rw [place_building_resources, place_building_resources, place_building_resources,
    place_building_resources, place_building_resources]

lemma execute_action_cases (s : EnvState) (k x y : Int) :
    (execute_action s k x y).2 = s ∨ (execute_action s k x y).1 = true := by
  unfold execute_action
  split_ifs <;> simp

lemma execute_action_false (s : EnvState) (k x y : Int)
    (h : (execute_action s k x y).1 = false) : (execute_action s k x y).2 = s := by
  rcases execute_action_cases s k x y with h2 | h2
  · exact h2
  · rw [h2] at h; exact absurd h (by simp)

/-- C3: starting from any freshly reset state, every sequence of
execute_action calls keeps all six resource counts non-negative; and any
execute_action call that returns false leaves the whole state (in
particular every resource count and every grid cell) unchanged. -/
theorem C3_resource_safety :
    (∀ (rng : Rng) (acts : List (Int × Int × Int)),
      ResNonneg (applyActions (resetEnv rng) acts).resources) ∧
    (∀ (s : EnvState) (k x y : Int),
      (execute_action s k x y).1 = false → (execute_action s k x y).2 = s) := by
  constructor
  · intro rng acts
    apply applyActions_nonneg
    rw [resetEnv_resources]
    exact ⟨by decide, by decide, by decide, by decide, by decide, by decide⟩
  · exact execute_action_false

theorem C3_resource_safety_witness :
    ResNonneg (applyActions (resetEnv { coords := [], rolls := [] })
        [(0, 1, 1), (5, 1, 1), (9, 2, 2)]).resources ∧
      (execute_action sampleState 9 0 0).2 = sampleState :=
  ⟨C3_resource_safety.1 { coords := [], rolls := [] } [(0, 1, 1), (5, 1, 1), (9, 2, 2)],
    C3_resource_safety.2 sampleState 9 0 0 (by decide)⟩

lemma is_valid_position_iff (x y : Int) :
    is_valid_position ⟨x, y⟩ = true ↔ 0 ≤ x ∧ x < 20 ∧ 0 ≤ y ∧ y < 20 := by
  simp [is_valid_position, GRID_WIDTH, GRID_HEIGHT]

lemma gridGet_gridSet_self (g : List (List TileType)) (x y : Int) (t : TileType)
    (hy : y.toNat < g.length) (hx : x.toNat < (g.getD y.toNat []).length) :
    gridGet (gridSet g x y t) x y = t := by
  unfold gridGet gridSet
  simp only [List.getD_eq_getElem?_getD] at hx ⊢
  rw [List.getElem?_set_eq_of_lt _ hy]
  simp only [Option.getD_some]
  rw [List.getElem?_set_eq_of_lt _ hx]
  simp

lemma execute_road_spec (s : EnvState) (x y : Int) :
    (execute_action s 0 x y = (true, { s with
        grid := gridSet s.grid x y .ROAD,
        resources := { s.resources with roads := s.resources.roads - 1 } }) ∧
      is_valid_position ⟨x, y⟩ = true ∧ 0 < s.resources.roads ∧
      gridGet s.grid x y = .EMPTY) ∨
    (execute_action s 0 x y).1 = false := by
  unfold execute_action
  split_ifs <;> simp_all

lemma execute_motorway_spec (s : EnvState) (x y : Int) :
    (execute_action s 1 x y = (true, { s with
        grid := gridSet s.grid x y .MOTORWAY,
        resources := { s.resources with motorways := s.resources.motorways - 1 } }) ∧
      is_valid_position ⟨x, y⟩ = true ∧ 0 < s.resources.motorways ∧
      gridGet s.grid x y = .EMPTY) ∨
    (execute_action s 1 x y).1 = false := by
  unfold execute_action
  split_ifs <;> simp_all

lemma execute_remove_road (s : EnvState) (x y : Int)
    (hv : is_valid_position ⟨x, y⟩ = true) (hg : gridGet s.grid x y = .ROAD) :
    execute_action s 5 x y = (true, { s with
      grid := gridSet s.grid x y .EMPTY,
      resources := { s.resources with roads := s.resources.roads + 1 } }) := by
  simp [execute_action, hv, hg]

lemma execute_remove_motorway (s : EnvState) (x y : Int)
    (hv : is_valid_position ⟨x, y⟩ = true) (hg : gridGet s.grid x y = .MOTORWAY) :
    execute_action s 5 x y = (true, { s with
      grid := gridSet s.grid x y .EMPTY,
      resources := { s.resources with motorways := s.resources.motorways + 1 } }) := by
  simp [execute_action, hv, hg]

lemma grid_row_bounds (s : EnvState) (x y : Int)
    (hWF : s.grid.length = 20 ∧ ∀ row ∈ s.grid, row.length = 20)
    (hv : is_valid_position ⟨x, y⟩ = true) :
    y.toNat < s.grid.length ∧ x.toNat < (s.grid.getD y.toNat []).length := by
  rw [is_valid_position_iff] at hv
  have hylt : y.toNat < s.grid.length := by omega
  refine ⟨hylt, ?_⟩
  have hrow : s.grid.getD y.toNat [] ∈ s.grid := by
    rw [List.getD_eq_getElem?_getD, List.getElem?_eq_getElem hylt]
    exact List.getElem_mem hylt
  rw [hWF.2 _ hrow]
  omega

/-- C5 counterexample: placing a BRIDGE (kind 2) at (0,0) on the
constructor state succeeds, but then applying Remove (kind 5) at the same
cell does not restore the ledger (Remove only succeeds on Road or
Motorway), so the round-trip claim fails for kind 2. -/
theorem C5_counterexample :
    (execute_action sampleState 2 0 0).1 = true ∧
      ((execute_action (execute_action sampleState 2 0 0).2 5 0 0).2).resources ≠
        sampleState.resources := by decide

/-- C5 amended: for road (kind 0) and motorway (kind 1) placements on a
well-formed 20-by-20 grid, a successful placement followed immediately by
Remove (kind 5) at the same cell restores the resource ledger exactly;
the other placeable kinds (bridge, roundabout, traffic light) cannot be
removed, so the round-trip holds only for these two kinds. -/
theorem C5_place_remove_roundtrip (s : EnvState) (k x y : Int)
    (hWF : s.grid.length = 20 ∧ ∀ row ∈ s.grid, row.length = 20)
    (hk : k = 0 ∨ k = 1)
    (hs : (execute_action s k x y).1 = true) :
    ((execute_action (execute_action s k x y).2 5 x y).2).resources = s.resources := by
  rcases hk with hk | hk <;> subst hk
  · rcases execute_road_spec s x y with ⟨heq, hv, hr, hE⟩ | hf
    · rw [heq]
      obtain ⟨hylt, hxlt⟩ := grid_row_bounds s x y hWF hv
      have hgot := gridGet_gridSet_self s.grid x y .ROAD hylt hxlt
      rw [execute_remove_road _ x y hv hgot]
      have hcancel : s.resources.roads - 1 + 1 = s.resources.roads := by omega
      simp [hcancel]
    · rw [hs] at hf
      exact absurd hf (by decide)
  · rcases execute_motorway_spec s x y with ⟨heq, hv, hr, hE⟩ | hf
    · rw [heq]
      obtain ⟨hylt, hxlt⟩ := grid_row_bounds s x y hWF hv
      have hgot := gridGet_gridSet_self s.grid x y .MOTORWAY hylt hxlt
      rw [execute_remove_motorway _ x y hv hgot]
      have hcancel : s.resources.motorways - 1 + 1 = s.resources.motorways := by omega
      simp [hcancel]
    · rw [hs] at hf
      exact absurd hf (by decide)

theorem C5_place_remove_roundtrip_witness :
    ((execute_action (execute_action sampleState 0 3 4).2 5 3 4).2).resources =
      sampleState.resources :=
  C5_place_remove_roundtrip sampleState 0 3 4 ⟨by decide, by decide⟩
    (Or.inl rfl) (by decide)

lemma simulate_traffic_frame (s : EnvState) :
    (simulate_traffic s).grid = s.grid ∧
      (simulate_traffic s).resources = s.resources ∧
      (simulate_traffic s).current_step = s.current_step ∧
      (simulate_traffic s).buildings = s.buildings := by
  unfold simulate_traffic
  exact ⟨rfl, rfl, rfl, rfl⟩

lemma spawn_cars_frame (s : EnvState) :
    (spawn_cars s).grid = s.grid ∧
      (spawn_cars s).resources = s.resources ∧
      (spawn_cars s).current_step = s.current_step ∧
      (spawn_cars s).score = s.score ∧
      (spawn_cars s).congestion_penalty = s.congestion_penalty := by
  unfold spawn_cars
  split <;> exact ⟨rfl, rfl, rfl, rfl, rfl⟩

/-- C7: a well-formed action tuple with kind at least 6 in a non-terminal
state skips the action executor (grid and ledger unchanged) while the
step counter still advances by 1 and vehicle movement, spawning and the
termination check still run. -/
theorem C7_pass_action (s : EnvState) (k x y : Int)
    (hk : 6 ≤ k) (hg : s.game_over = false) :
    (step s [k, x, y]).1 =
      { spawn_cars (simulate_traffic { s with current_step := s.current_step + 1 }) with
        game_over := check_game_over
          (spawn_cars (simulate_traffic { s with current_step := s.current_step + 1 })) } ∧
      (step s [k, x, y]).1.grid = s.grid ∧
      (step s [k, x, y]).1.resources = s.resources ∧
      (step s [k, x, y]).1.current_step = s.current_step + 1 := by
  have hstep : (step s [k, x, y]).1 =
      { spawn_cars (simulate_traffic { s with current_step := s.current_step + 1 }) with
        game_over := check_game_over
          (spawn_cars (simulate_traffic { s with current_step := s.current_step + 1 })) } := by
    unfold step
    rw [if_neg (by simp [hg])]
    dsimp only
    rw [if_neg (by simp; omega)]
  refine ⟨hstep, ?_, ?_, ?_⟩ <;> rw [hstep]
  · show (spawn_cars (simulate_traffic _)).grid = s.grid
    rw [(spawn_cars_frame _).1, (simulate_traffic_frame _).1]
  · show (spawn_cars (simulate_traffic _)).resources = s.resources
    rw [(spawn_cars_frame _).2.1, (simulate_traffic_frame _).2.1]
  · show (spawn_cars (simulate_traffic _)).current_step = s.current_step + 1
    rw [(spawn_cars_frame _).2.2.1, (simulate_traffic_frame _).2.2.1]

theorem C7_pass_action_witness :
    (step sampleState [6, 0, 0]).1 =
      { spawn_cars (simulate_traffic { sampleState with
          current_step := sampleState.current_step + 1 }) with
        game_over := check_game_over
          (spawn_cars (simulate_traffic { sampleState with
            current_step := sampleState.current_step + 1 })) } ∧
      (step sampleState [6, 0, 0]).1.grid = sampleState.grid ∧
      (step sampleState [6, 0, 0]).1.resources = sampleState.resources ∧
      (step sampleState [6, 0, 0]).1.current_step = sampleState.current_step + 1 :=
  C7_pass_action sampleState 6 0 0 (by decide) rfl

lemma simulate_cars_append (g : List (List TileType)) (l1 l2 : List Car) :
    simulate_cars g (l1 ++ l2) =
      ((simulate_cars g l1).1 ++ (simulate_cars g l2).1,
        (simulate_cars g l1).2.1 + (simulate_cars g l2).2.1,
        (simulate_cars g l1).2.2 + (simulate_cars g l2).2.2) := by
  induction l1 with
  | nil => simp [simulate_cars]
  | cons c cs ih =>
    simp only [List.cons_append, simulate_cars, List.append_eq, ih]
    refine Prod.ext ?_ (Prod.ext ?_ ?_) <;> dsimp only <;> first | simp | ring

lemma sim_car_stuck (grid : List (List TileType)) (car : Car)
    (h1 : car.completed = false) (h2 : 2 ≤ car.path.length)
    (h3 : can_move_to grid (car.path.getD 1 ⟨0, 0⟩) = false) :
    simulate_traffic_car grid car =
      ({ car with stuck_time := car.stuck_time + 1 }, 0,
        if car.stuck_time + 1 > 10 then 1 else 0) := by
  have hne : car.path.isEmpty = false := by
    cases hp : car.path with
    | nil => rw [hp] at h2; simp at h2
    | cons a l => rfl
  have h3n : can_move_to grid (car.path[1]?.getD ⟨0, 0⟩) = false := by
    simpa [List.getD_eq_getElem?_getD] using h3
  unfold simulate_traffic_car
  simp only [h1, Bool.false_eq_true, if_false, hne]
  rw [if_pos (by omega : 1 < car.path.length)]
  rw [if_neg (by simp [List.getD_eq_getElem?_getD, h3n])]

/-- C6: on every step, a non-completed vehicle whose route has at least
two waypoints and whose second waypoint is not passable gets its stuck
counter incremented by 1, and whenever the incremented counter exceeds 10
the episode congestion-penalty counter gains 1 on that step (this happens
on every such step, not once). -/
theorem C6_congestion (grid : List (List TileType)) (car : Car)
    (h1 : car.completed = false) (h2 : 2 ≤ car.path.length)
    (h3 : can_move_to grid (car.path.getD 1 ⟨0, 0⟩) = false) :
    simulate_traffic_car grid car =
      ({ car with stuck_time := car.stuck_time + 1 }, 0,
        if car.stuck_time + 1 > 10 then 1 else 0) ∧
    ∀ (s : EnvState) (pre post : List Car),
      s.grid = grid → s.cars = pre ++ car :: post →
      (simulate_traffic s).congestion_penalty =
        s.congestion_penalty + (simulate_cars grid pre).2.2 +
          (if car.stuck_time + 1 > 10 then 1 else 0) +
          (simulate_cars grid post).2.2 := by
  refine ⟨sim_car_stuck grid car h1 h2 h3, ?_⟩
  intro s pre post hg hcars
  unfold simulate_traffic
  rw [hcars, hg, simulate_cars_append]
  have hcons : simulate_cars grid (car :: post) =
      ((simulate_traffic_car grid car).1 :: (simulate_cars grid post).1,
        (simulate_traffic_car grid car).2.1 + (simulate_cars grid post).2.1,
        (simulate_traffic_car grid car).2.2 + (simulate_cars grid post).2.2) := rfl
  rw [hcons, sim_car_stuck grid car h1 h2 h3]
  dsimp only
  ring

/- A concrete vehicle whose next waypoint is impassable (used by witnesses). -/
def stuckCar : Car :=
  { position := ⟨0, 0⟩, destination := ⟨5, 0⟩, color := .RED,
    path := [⟨0, 0⟩, ⟨1, 0⟩], stuck_time := 10, completed := false,
    visual_x := 0, visual_y := 0, speed := 1 / 10 }

theorem C6_congestion_witness :
    simulate_traffic_car emptyGrid stuckCar =
      ({ stuckCar with stuck_time := stuckCar.stuck_time + 1 }, 0,
        if stuckCar.stuck_time + 1 > 10 then 1 else 0) ∧
    (simulate_traffic { sampleState with cars := [stuckCar] }).congestion_penalty =
      ({ sampleState with cars := [stuckCar] } : EnvState).congestion_penalty +
        (simulate_cars emptyGrid []).2.2 +
        (if stuckCar.stuck_time + 1 > 10 then 1 else 0) +
        (simulate_cars emptyGrid []).2.2 := by
  obtain ⟨ha, hb⟩ := C6_congestion emptyGrid stuckCar (by decide) (by decide) (by decide)
  exact ⟨ha, hb { sampleState with cars := [stuckCar] } [] [] rfl rfl⟩

/-- C9: a non-completed vehicle whose route is empty with an unreachable
destination (the path search returns the empty sequence), or whose route
holds exactly one waypoint, is left completely unchanged by the traffic
step: position, route and stuck counter keep their values, it stays in
the active collection, and it contributes nothing to the score or the
congestion penalty (hence it never accumulates stuck duration and never
counts toward the stuck-car termination condition). -/
theorem C9_stationary (grid : List (List TileType)) (car : Car)
    (h1 : car.completed = false)
    (h : (car.path = [] ∧ find_path car.position car.destination grid = []) ∨
      car.path.length = 1) :
    simulate_traffic_car grid car = (car, 0, 0) ∧
    ∀ (s : EnvState) (pre post : List Car),
      s.grid = grid → s.cars = pre ++ car :: post →
      (simulate_traffic s).cars =
        (simulate_cars grid pre).1.filter (fun c => !c.completed) ++
          car :: (simulate_cars grid post).1.filter (fun c => !c.completed) ∧
      (simulate_traffic s).score = s.score +
        ((simulate_cars grid pre).2.1 + (simulate_cars grid post).2.1) ∧
      (simulate_traffic s).congestion_penalty = s.congestion_penalty +
        ((simulate_cars grid pre).2.2 + (simulate_cars grid post).2.2) := by
  have hcar : simulate_traffic_car grid car = (car, 0, 0) := by
    obtain ⟨pos, dest, col, cpath, cstuck, ccomp, vx, vy, sp⟩ := car
    dsimp only at h1 h ⊢
    subst h1
    rcases h with ⟨hp, hf⟩ | hl
    · subst hp
      unfold simulate_traffic_car
      simp [hf]
    · obtain ⟨a, rfl⟩ := List.length_eq_one.mp hl
      unfold simulate_traffic_car
      simp
  refine ⟨hcar, ?_⟩
  intro s pre post hg hcars
  unfold simulate_traffic
  rw [hcars, hg, simulate_cars_append]
  have hcons : simulate_cars grid (car :: post) =
      (car :: (simulate_cars grid post).1,
        (simulate_cars grid post).2.1, (simulate_cars grid post).2.2) := by
    show ((simulate_traffic_car grid car).1 :: (simulate_cars grid post).1,
      (simulate_traffic_car grid car).2.1 + (simulate_cars grid post).2.1,
      (simulate_traffic_car grid car).2.2 + (simulate_cars grid post).2.2) = _
    rw [hcar]
    dsimp only
    refine Prod.ext rfl (Prod.ext ?_ ?_) <;> dsimp only <;> ring
  rw [hcons]
  refine ⟨?_, ?_, ?_⟩
  · dsimp only
    rw [List.filter_append, List.filter_cons_of_pos (by simp [h1])]
  · dsimp only
  · dsimp only

theorem C9_stationary_witness :
    simulate_traffic_car emptyGrid (mkCar ⟨0, 0⟩ ⟨5, 0⟩ .RED) =
      (mkCar ⟨0, 0⟩ ⟨5, 0⟩ .RED, 0, 0) ∧
    (simulate_traffic { sampleState with cars := [mkCar ⟨0, 0⟩ ⟨5, 0⟩ .RED] }).cars =
      (simulate_cars emptyGrid []).1.filter (fun c => !c.completed) ++
        mkCar ⟨0, 0⟩ ⟨5, 0⟩ .RED ::
          (simulate_cars emptyGrid []).1.filter (fun c => !c.completed) := by
  obtain ⟨ha, hb⟩ := C9_stationary emptyGrid (mkCar ⟨0, 0⟩ ⟨5, 0⟩ .RED) (by decide)
    (Or.inl ⟨rfl, by decide⟩)
  exact ⟨ha, (hb { sampleState with cars := [mkCar ⟨0, 0⟩ ⟨5, 0⟩ .RED] } [] [] rfl rfl).1⟩

/- The invariant behind C10: businesses are only RED or BLUE, every
   active vehicle is RED or BLUE, and every GREEN house has never
   spawned. -/
def InvC10 (s : EnvState) : Prop :=
  (∀ b ∈ s.buildings, b.type = .BUSINESS → b.color = .RED ∨ b.color = .BLUE) ∧
  (∀ c ∈ s.cars, c.color = .RED ∨ c.color = .BLUE) ∧
  (∀ b ∈ s.buildings, b.type = .HOUSE → b.color = .GREEN → b.cars_spawned = 0)

lemma place_building_buildings_eq (t : TileType) (col : CarColor) (s : EnvState) :
    ∃ opt : List Building,
      (place_building t col s).buildings = s.buildings ++ opt ∧
      (opt = [] ∨ ∃ p, opt = [mkBuilding p col t]) := by
  unfold place_building
  dsimp only
  split
  · exact ⟨_, rfl, Or.inr ⟨_, rfl⟩⟩
  · exact ⟨[], by simp, Or.inl rfl⟩

lemma place_building_cars (t : TileType) (col : CarColor) (s : EnvState) :
    (place_building t col s).cars = s.cars := by
  unfold place_building
  dsimp only
  split <;> rfl

lemma resetEnv_cars (rng : Rng) : (resetEnv rng).cars = [] := by
  unfold resetEnv spawn_initial_buildings
  rw [place_building_cars, place_building_cars, place_building_cars,
    place_building_cars, place_building_cars]

/- The building registry after reset decomposes into the five optional
   placements, in registry order. -/
lemma resetEnv_buildings (rng : Rng) :
    ∃ o1 o2 o3 o4 o5 : List Building,
      (resetEnv rng).buildings = o1 ++ o2 ++ o3 ++ o4 ++ o5 ∧
      (o1 = [] ∨ ∃ p, o1 = [mkBuilding p .RED .HOUSE]) ∧
      (o2 = [] ∨ ∃ p, o2 = [mkBuilding p .BLUE .HOUSE]) ∧
      (o3 = [] ∨ ∃ p, o3 = [mkBuilding p .GREEN .HOUSE]) ∧
      (o4 = [] ∨ ∃ p, o4 = [mkBuilding p .RED .BUSINESS]) ∧
      (o5 = [] ∨ ∃ p, o5 = [mkBuilding p .BLUE .BUSINESS]) := by
  unfold resetEnv spawn_initial_buildings
  obtain ⟨o1, e1, d1⟩ := place_building_buildings_eq .HOUSE .RED _
  obtain ⟨o2, e2, d2⟩ := place_building_buildings_eq .HOUSE .BLUE _
  obtain ⟨o3, e3, d3⟩ := place_building_buildings_eq .HOUSE .GREEN _
  obtain ⟨o4, e4, d4⟩ := place_building_buildings_eq .BUSINESS .RED _
  obtain ⟨o5, e5, d5⟩ := place_building_buildings_eq .BUSINESS .BLUE _
  refine ⟨o1, o2, o3, o4, o5, ?_, d1, d2, d3, d4, d5⟩
  rw [e5, e4, e3, e2, e1]
  simp

lemma resetEnv_inv (rng : Rng) : InvC10 (resetEnv rng) := by
  obtain ⟨o1, o2, o3, o4, o5, he, d1, d2, d3, d4, d5⟩ := resetEnv_buildings rng
  have hmem : ∀ b ∈ (resetEnv rng).buildings,
      b ∈ o1 ∨ b ∈ o2 ∨ b ∈ o3 ∨ b ∈ o4 ∨ b ∈ o5 := by
    intro b hb
    rw [he] at hb
    simp only [List.mem_append] at hb
    rcases hb with ((((h | h) | h) | h) | h)
    · exact Or.inl h
    · exact Or.inr (Or.inl h)
    · exact Or.inr (Or.inr (Or.inl h))
    · exact Or.inr (Or.inr (Or.inr (Or.inl h)))
    · exact Or.inr (Or.inr (Or.inr (Or.inr h)))
  refine ⟨?_, ?_, ?_⟩
  · intro b hb htype
    have h5 := hmem b hb
    clear hb he hmem
    rcases h5 with h | h | h | h | h
    · rcases d1 with d | ⟨p, d⟩ <;> subst d
      · simp at h
      · rw [List.mem_singleton] at h; subst h; exact absurd htype (by simp [mkBuilding])
    · rcases d2 with d | ⟨p, d⟩ <;> subst d
      · simp at h
      · rw [List.mem_singleton] at h; subst h; exact absurd htype (by simp [mkBuilding])
    · rcases d3 with d | ⟨p, d⟩ <;> subst d
      · simp at h
      · rw [List.mem_singleton] at h; subst h; exact absurd htype (by simp [mkBuilding])
    · rcases d4 with d | ⟨p, d⟩ <;> subst d
      · simp at h
      · rw [List.mem_singleton] at h; subst h; exact Or.inl rfl
    · rcases d5 with d | ⟨p, d⟩ <;> subst d
      · simp at h
      · rw [List.mem_singleton] at h; subst h; exact Or.inr rfl
  · rw [resetEnv_cars]
    intro c hc
    simp at hc
  · intro b hb htype hcol
    have h5 := hmem b hb
    clear hb he hmem
    rcases h5 with h | h | h | h | h
    · rcases d1 with d | ⟨p, d⟩ <;> subst d
      · simp at h
      · rw [List.mem_singleton] at h; subst h; exact absurd hcol (by simp [mkBuilding])
    · rcases d2 with d | ⟨p, d⟩ <;> subst d
      · simp at h
      · rw [List.mem_singleton] at h; subst h; exact absurd hcol (by simp [mkBuilding])
    · rcases d3 with d | ⟨p, d⟩ <;> subst d
      · simp at h
      · rw [List.mem_singleton] at h; subst h; rfl
    · rcases d4 with d | ⟨p, d⟩ <;> subst d
      · simp at h
      · rw [List.mem_singleton] at h; subst h; exact absurd htype (by simp [mkBuilding])
    · rcases d5 with d | ⟨p, d⟩ <;> subst d
      · simp at h
      · rw [List.mem_singleton] at h; subst h; exact absurd htype (by simp [mkBuilding])

lemma resetEnv_house_colors (rng : Rng)
    (h3 : ((resetEnv rng).buildings.filter fun b => b.type == .HOUSE).length = 3) :
    ((resetEnv rng).buildings.filter fun b => b.type == .HOUSE).map Building.color
      = [.RED, .BLUE, .GREEN] := by
  obtain ⟨o1, o2, o3, o4, o5, he, d1, d2, d3, d4, d5⟩ := resetEnv_buildings rng
  rw [he] at h3 ⊢
  clear he
  have f4 : o4.filter (fun b => b.type == .HOUSE) = [] := by
    rcases d4 with d | ⟨p, d⟩ <;> subst d <;> rfl
  have f5 : o5.filter (fun b => b.type == .HOUSE) = [] := by
    rcases d5 with d | ⟨p, d⟩ <;> subst d <;> rfl
  simp only [List.filter_append, f4, f5, List.append_nil] at h3 ⊢
  rcases d1 with d | ⟨p1, d⟩ <;> subst d <;>
    rcases d2 with d | ⟨p2, d⟩ <;> subst d <;>
      rcases d3 with d | ⟨p3, d⟩ <;> subst d <;>
        simp_all [mkBuilding]

lemma sim_car_color (g : List (List TileType)) (c : Car) :
    (simulate_traffic_car g c).1.color = c.color := by
  unfold simulate_traffic_car
  dsimp only
  split_ifs <;> rfl

lemma simulate_cars_mem (g : List (List TileType)) (l : List Car) :
    ∀ x ∈ (simulate_cars g l).1, ∃ c ∈ l, x = (simulate_traffic_car g c).1 := by
  induction l with
  | nil => intro x hx; simp [simulate_cars] at hx
  | cons c cs ih =>
    intro x hx
    rw [show (simulate_cars g (c :: cs)).1 =
      (simulate_traffic_car g c).1 :: (simulate_cars g cs).1 from rfl] at hx
    rcases List.mem_cons.mp hx with h | h
    · exact ⟨c, List.mem_cons_self c cs, h⟩
    · obtain ⟨c2, hc2, e⟩ := ih x h
      exact ⟨c2, List.mem_cons_of_mem c hc2, e⟩

lemma simulate_traffic_invC10 (s : EnvState) (h : InvC10 s) :
    InvC10 (simulate_traffic s) := by
  obtain ⟨h1, h2, h3⟩ := h
  refine ⟨?_, ?_, ?_⟩
  · intro b hb ht
    rw [(simulate_traffic_frame s).2.2.2] at hb
    exact h1 b hb ht
  · intro c hc
    rw [show (simulate_traffic s).cars =
      (simulate_cars s.grid s.cars).1.filter (fun c => !c.completed) from rfl] at hc
    obtain ⟨c0, hc0, e⟩ := simulate_cars_mem _ _ c (List.mem_of_mem_filter hc)
    rw [e, sim_car_color]
    exact h2 c0 hc0
  · intro b hb ht hcol
    rw [(simulate_traffic_frame s).2.2.2] at hb
    exact h3 b hb ht hcol

lemma spawn_cars_loop_succ_some (n i : Nat) (bs : List Building) (cars : List Car)
    (rng : Rng) (b : Building) (hbi : bs[i]? = some b) :
    spawn_cars_loop (n + 1) i bs cars rng =
      if b.type = .HOUSE ∧ b.cars_spawned < b.max_cars then
        (if (rng.drawRoll).1 then
          match find_matching_business bs b.color with
          | some business =>
            spawn_cars_loop n (i + 1)
              (bs.set i { b with cars_spawned := b.cars_spawned + 1 })
              (cars ++ [mkCar b.position business.position b.color]) (rng.drawRoll).2
          | none => spawn_cars_loop n (i + 1) bs cars (rng.drawRoll).2
        else spawn_cars_loop n (i + 1) bs cars (rng.drawRoll).2)
      else spawn_cars_loop n (i + 1) bs cars rng := by
  simp only [spawn_cars_loop, hbi]

lemma spawn_cars_loop_inv :
    ∀ (n i : Nat) (bs : List Building) (cars : List Car) (rng : Rng),
    (∀ b ∈ bs, b.type = .BUSINESS → b.color = .RED ∨ b.color = .BLUE) →
    (∀ c ∈ cars, c.color = .RED ∨ c.color = .BLUE) →
    (∀ b ∈ bs, b.type = .HOUSE → b.color = .GREEN → b.cars_spawned = 0) →
    (∀ b ∈ (spawn_cars_loop n i bs cars rng).1,
        b.type = .BUSINESS → b.color = .RED ∨ b.color = .BLUE) ∧
    (∀ c ∈ (spawn_cars_loop n i bs cars rng).2.1,
        c.color = .RED ∨ c.color = .BLUE) ∧
    (∀ b ∈ (spawn_cars_loop n i bs cars rng).1,
        b.type = .HOUSE → b.color = .GREEN → b.cars_spawned = 0) := by
  intro n
  induction n with
  | zero => intro i bs cars rng hB hC hG; exact ⟨hB, hC, hG⟩
  | succ n ih =>
    intro i bs cars rng hB hC hG
    cases hbi : bs[i]? with
    | none =>
      have he : spawn_cars_loop (n + 1) i bs cars rng = (bs, cars, rng) := by
        simp only [spawn_cars_loop, hbi]
      rw [he]
      exact ⟨hB, hC, hG⟩
    | some b =>
      rw [spawn_cars_loop_succ_some n i bs cars rng b hbi]
      by_cases hb : b.type = .HOUSE ∧ b.cars_spawned < b.max_cars
      · rw [if_pos hb]
        cases hr : (rng.drawRoll).1 with
        | false =>
          rw [if_neg (by simp)]
          exact ih (i + 1) bs cars (rng.drawRoll).2 hB hC hG
        | true =>
          rw [if_pos rfl]
          cases hfm : find_matching_business bs b.color with
          | none => exact ih (i + 1) bs cars (rng.drawRoll).2 hB hC hG
          | some business =>
            have hfacts : business.type = .BUSINESS ∧ business.color = b.color := by
              have hp := List.find?_some hfm
              simp [Bool.and_eq_true] at hp
              exact hp
            have hbmem : business ∈ bs := List.mem_of_find?_eq_some hfm
            have hbcol : b.color = .RED ∨ b.color = .BLUE := by
              rw [← hfacts.2]
              exact hB business hbmem hfacts.1
            have hB' : ∀ x ∈ bs.set i { b with cars_spawned := b.cars_spawned + 1 },
                x.type = .BUSINESS → x.color = .RED ∨ x.color = .BLUE := by
              intro x hx htx
              rcases List.mem_or_eq_of_mem_set hx with hx2 | hx2
              · exact hB x hx2 htx
              · subst hx2
                exact absurd htx (by simp [hb.1])
            have hC' : ∀ x ∈ cars ++ [mkCar b.position business.position b.color],
                x.color = .RED ∨ x.color = .BLUE := by
              intro x hx
              rcases List.mem_append.mp hx with hx2 | hx2
              · exact hC x hx2
              · rw [List.mem_singleton] at hx2
                subst hx2
                exact hbcol
            have hG' : ∀ x ∈ bs.set i { b with cars_spawned := b.cars_spawned + 1 },
                x.type = .HOUSE → x.color = .GREEN → x.cars_spawned = 0 := by
              intro x hx htx hcx
              rcases List.mem_or_eq_of_mem_set hx with hx2 | hx2
              · exact hG x hx2 htx hcx
              · subst hx2
                dsimp only at hcx
                rcases hbcol with h | h <;> rw [h] at hcx <;> exact absurd hcx (by simp)
            exact ih (i + 1) (bs.set i { b with cars_spawned := b.cars_spawned + 1 })
              (cars ++ [mkCar b.position business.position b.color]) (rng.drawRoll).2
              hB' hC' hG'
      · rw [if_neg hb]
        exact ih (i + 1) bs cars rng hB hC hG

lemma spawn_cars_invC10 (s : EnvState) (h : InvC10 s) : InvC10 (spawn_cars s) := by
  obtain ⟨h1, h2, h3⟩ := h
  unfold spawn_cars
  split
  · obtain ⟨g1, g2, g3⟩ :=
      spawn_cars_loop_inv s.buildings.length 0 s.buildings s.cars s.rng h1 h2 h3
    exact ⟨g1, g2, g3⟩
  · exact ⟨h1, h2, h3⟩

lemma execute_action_cars_buildings (s : EnvState) (k x y : Int) :
    ((execute_action s k x y).2).cars = s.cars ∧
      ((execute_action s k x y).2).buildings = s.buildings := by
  unfold execute_action
  split_ifs <;> exact ⟨rfl, rfl⟩

lemma step_invC10 (s : EnvState) (a : List Int) (h : InvC10 s) :
    InvC10 (step s a).1 := by
  unfold step
  split
  · exact h
  · dsimp only
    have h1 : InvC10 (if a.getD 0 0 < 6 then
        (execute_action { s with current_step := s.current_step + 1 }
          (a.getD 0 0) (a.getD 1 0) (a.getD 2 0)).2
      else { s with current_step := s.current_step + 1 }) := by
      split
      · obtain ⟨hc, hbld⟩ := execute_action_cars_buildings
          { s with current_step := s.current_step + 1 } (a.getD 0 0) (a.getD 1 0) (a.getD 2 0)
        refine ⟨?_, ?_, ?_⟩
        · intro b hb ht
          rw [hbld] at hb
          exact h.1 b hb ht
        · intro c hc2
          rw [hc] at hc2
          exact h.2.1 c hc2
        · intro b hb ht hcol
          rw [hbld] at hb
          exact h.2.2 b hb ht hcol
      · exact h
    exact spawn_cars_invC10 _ (simulate_traffic_invC10 _ h1)

lemma applySteps_invC10 (acts : List (List Int)) :
    ∀ s : EnvState, InvC10 s → InvC10 (applySteps s acts) := by
  induction acts with
  | nil => intro s h; exact h
  | cons a rest ih => intro s h; exact ih _ (step_invC10 s a h)

/-- C10: after any reset, the businesses are only RED or BLUE, and when
all three houses were placed they carry RED, BLUE, GREEN in registry
order; along any subsequent sequence of steps every active vehicle is RED
or BLUE and every GREEN house still has spawned-count 0 (the green house
never spawns, because no GREEN business ever exists). -/
theorem C10_colors (rng : Rng) :
    (∀ b ∈ (resetEnv rng).buildings,
      b.type = .BUSINESS → b.color = .RED ∨ b.color = .BLUE) ∧
    (((resetEnv rng).buildings.filter fun b => b.type == .HOUSE).length = 3 →
      ((resetEnv rng).buildings.filter fun b => b.type == .HOUSE).map Building.color
        = [.RED, .BLUE, .GREEN]) ∧
    ∀ acts : List (List Int),
      (∀ c ∈ (applySteps (resetEnv rng) acts).cars,
        c.color = .RED ∨ c.color = .BLUE) ∧
      (∀ b ∈ (applySteps (resetEnv rng) acts).buildings,
        b.type = .HOUSE → b.color = .GREEN → b.cars_spawned = 0) := by
  refine ⟨(resetEnv_inv rng).1, resetEnv_house_colors rng, ?_⟩
  intro acts
  have h := applySteps_invC10 acts _ (resetEnv_inv rng)
  exact ⟨h.2.1, h.2.2⟩

/- A concrete random stream: the five building placements land on
   (0,0) .. (4,0), each on the first attempt. -/
def rng0 : Rng :=
  { coords := [(0, 0), (1, 0), (2, 0), (3, 0), (4, 0)], rolls := [] }

theorem C10_colors_witness :
    (((resetEnv rng0).buildings.filter fun b => b.type == .HOUSE).map Building.color
        = [.RED, .BLUE, .GREEN]) ∧
    ((mkBuilding ⟨3, 0⟩ .RED .BUSINESS).color = .RED ∨
      (mkBuilding ⟨3, 0⟩ .RED .BUSINESS).color = .BLUE) ∧
    (mkBuilding ⟨2, 0⟩ .GREEN .HOUSE).cars_spawned = 0 := by
  obtain ⟨h1, h2, h3⟩ := C10_colors rng0
  refine ⟨h2 (by decide), h1 (mkBuilding ⟨3, 0⟩ .RED .BUSINESS) (by decide) rfl, ?_⟩
  exact (h3 []).2 (mkBuilding ⟨2, 0⟩ .GREEN .HOUSE) (by decide) rfl rfl

/- In-bounds test used by find_path: x against grid[0].size(), y against
   grid.size(). -/
def InBoundsF (grid : List (List TileType)) (p : Position) : Prop :=
  0 ≤ p.x ∧ p.x < (((grid.getD 0 []).length : Int)) ∧ 0 ≤ p.y ∧ p.y < ((grid.length : Int))

instance (grid : List (List TileType)) (p : Position) : Decidable (InBoundsF grid p) :=
  inferInstanceAs (Decidable (0 ≤ p.x ∧ p.x < (((grid.getD 0 []).length : Int)) ∧
    0 ≤ p.y ∧ p.y < ((grid.length : Int))))

/- A cell a vehicle may stand on: in bounds with a passable tile kind
   (every kind except Empty). -/
def PassableAt (grid : List (List TileType)) (p : Position) : Prop :=
  InBoundsF grid p ∧ passableTile (gridGet grid p.x p.y) = true

instance (grid : List (List TileType)) (p : Position) : Decidable (PassableAt grid p) :=
  inferInstanceAs (Decidable (InBoundsF grid p ∧ passableTile (gridGet grid p.x p.y) = true))

/- Four-adjacency of grid cells. -/
def Adjacent (a b : Position) : Prop :=
  (a.x - b.x).natAbs + (a.y - b.y).natAbs = 1

instance (a b : Position) : Decidable (Adjacent a b) :=
  inferInstanceAs (Decidable ((a.x - b.x).natAbs + (a.y - b.y).natAbs = 1))

/- A route of the search graph: starts at start, ends at goal, moves by
   unit steps, and every cell after the first is passable (find_path
   never tests the passability of start itself). -/
def IsRoute (grid : List (List TileType)) (start goal : Position)
    (l : List Position) : Prop :=
  l.head? = some start ∧ l.getLast? = some goal ∧ List.Chain' Adjacent l ∧
    ∀ p ∈ l.tail, PassableAt grid p

/- A path in the sense of the specification: a sequence of 4-adjacent
   passable cells from start to goal, both included. -/
def IsPath (grid : List (List TileType)) (start goal : Position)
    (l : List Position) : Prop :=
  l.head? = some start ∧ l.getLast? = some goal ∧ List.Chain' Adjacent l ∧
    ∀ p ∈ l, PassableAt grid p

/- The optimal route length (edge count) from start to p. -/
def OptDist (grid : List (List TileType)) (start p : Position) (v : ℕ) : Prop :=
  (∃ l, IsRoute grid start p l ∧ l.length = v + 1) ∧
  ∀ (m : ℕ) (l : List Position), IsRoute grid start p l → l.length = m + 1 → v ≤ m

/- The set of move counts of passable paths, and the claimed minimum. -/
def pathLens (grid : List (List TileType)) (start goal : Position) : Set ℕ :=
  { n | ∃ l, IsPath grid start goal l ∧ l.length = n + 1 }

noncomputable def distSP (grid : List (List TileType)) (start goal : Position) : ℕ :=
  sInf (pathLens grid start goal)

lemma Adjacent.symm2 {a b : Position} (h : Adjacent a b) : Adjacent b a := by
  unfold Adjacent at h ⊢
  omega

lemma adjacent_ne {a b : Position} (h : Adjacent a b) : a ≠ b := by
  intro he
  subst he
  unfold Adjacent at h
  omega

/- Consistency of the Manhattan heuristic: adjacent cells differ by at
   most one in heuristic value. -/
lemma manhattan_consistent (p q goal : Position) (h : Adjacent p q) :
    calculate_distance p goal ≤ calculate_distance q goal + 1 := by
  unfold Adjacent at h
  unfold calculate_distance
  omega

/- Every 4-neighbour arises from one of the four direction offsets. -/
lemma adjacent_iff_dir (q p : Position) :
    Adjacent q p ↔ ∃ d ∈ directions, q = ⟨p.x + d.x, p.y + d.y⟩ := by
  constructor
  · intro h
    unfold Adjacent at h
    have hc : (q.x = p.x ∧ q.y = p.y + 1) ∨ (q.x = p.x + 1 ∧ q.y = p.y) ∨
        (q.x = p.x ∧ q.y = p.y - 1) ∨ (q.x = p.x - 1 ∧ q.y = p.y) := by omega
    rcases hc with ⟨h1, h2⟩ | ⟨h1, h2⟩ | ⟨h1, h2⟩ | ⟨h1, h2⟩
    · exact ⟨⟨0, 1⟩, by simp [directions], by cases q; simp_all <;> omega⟩
    · exact ⟨⟨1, 0⟩, by simp [directions], by cases q; simp_all <;> omega⟩
    · exact ⟨⟨0, -1⟩, by simp [directions], by cases q; simp_all <;> omega⟩
    · exact ⟨⟨-1, 0⟩, by simp [directions], by cases q; simp_all <;> omega⟩
  · intro ⟨d, hd, he⟩
    subst he
    unfold directions at hd
    simp only [List.mem_cons, List.not_mem_nil, or_false] at hd
    rcases hd with h | h | h | h <;> subst h <;> unfold Adjacent <;> dsimp only <;> omega

lemma route_singleton (grid : List (List TileType)) (p : Position) :
    IsRoute grid p p [p] := by
  refine ⟨rfl, rfl, ?_, ?_⟩
  · simp
  · intro q hq
    simp at hq

lemma route_nonempty {grid : List (List TileType)} {start goal : Position}
    {l : List Position} (h : IsRoute grid start goal l) : l ≠ [] := by
  intro he
  subst he
  simp [IsRoute] at h

/- Extending a route by one passable neighbour of its last cell. -/
lemma route_extend {grid : List (List TileType)} {start q : Position}
    {l : List Position} (h : IsRoute grid start q l) (p : Position)
    (hadj : Adjacent q p) (hp : PassableAt grid p) :
    IsRoute grid start p (l ++ [p]) := by
  obtain ⟨h1, h2, h3, h4⟩ := h
  have hne : l ≠ [] := by intro he; subst he; simp at h1
  refine ⟨?_, ?_, ?_, ?_⟩
  · rw [List.head?_append_of_ne_nil _ hne]
    exact h1
  · simp
  · rw [List.chain'_append]
    refine ⟨h3, by simp, ?_⟩
    intro x hx y hy
    simp at hy
    subst hy
    rw [h2] at hx
    simp at hx
    subst hx
    exact hadj
  · intro z hz
    rcases List.mem_append.mp (by
      have : (l ++ [p]).tail = l.tail ++ [p] := by
        cases l with
        | nil => exact absurd rfl hne
        | cons a as => simp
      rw [this] at hz
      exact hz) with h5 | h5
    · exact h4 z h5
    · rw [List.mem_singleton] at h5
      subst h5
      exact hp

/- The finite universe of positions the search can ever record: the start
   cell plus every in-bounds cell. -/
def cellsList (grid : List (List TileType)) (start : Position) : List Position :=
  (start :: (List.range grid.length).flatMap (fun (y : ℕ) =>
    (List.range (grid.getD 0 []).length).map
      (fun (x : ℕ) => (⟨(x : Int), (y : Int)⟩ : Position)))).dedup

lemma cellsList_nodup (grid : List (List TileType)) (start : Position) :
    (cellsList grid start).Nodup := List.nodup_dedup _

lemma mem_cellsList {grid : List (List TileType)} {start : Position} (p : Position) :
    p ∈ cellsList grid start ↔ p = start ∨ InBoundsF grid p := by
  unfold cellsList
  rw [List.mem_dedup]
  simp only [List.mem_cons, List.mem_flatMap, List.mem_map, List.mem_range]
  constructor
  · rintro (h | ⟨y, hy, x, hx, he⟩)
    · exact Or.inl h
    · right
      subst he
      unfold InBoundsF
      dsimp only
      refine ⟨by omega, by omega, by omega, by omega⟩
  · rintro (h | h)
    · exact Or.inl h
    · right
      obtain ⟨h1, h2, h3, h4⟩ := h
      refine ⟨p.y.toNat, by omega, p.x.toNat, by omega, ?_⟩
      cases p with
      | mk px py =>
        dsimp only at h1 h2 h3 h4 ⊢
        congr 1 <;> omega

lemma sum_const_list (l : List ℕ) (c : ℕ) : (l.map fun _ => c).sum = l.length * c := by
  induction l with
  | nil => simp
  | cons a as ih => simp [ih]; ring

lemma cellsList_length (grid : List (List TileType)) (start : Position) :
    (cellsList grid start).length ≤ grid.length * (grid.getD 0 []).length + 1 := by
  unfold cellsList
  have h0 := (List.dedup_sublist ((start :: (List.range grid.length).flatMap (fun (y : ℕ) =>
    (List.range (grid.getD 0 []).length).map
      (fun (x : ℕ) => (⟨(x : Int), (y : Int)⟩ : Position)))))).length_le
  refine le_trans h0 ?_
  simp only [List.length_cons, List.length_flatMap, List.map_map]
  have h2 : (List.length ∘ fun (y : ℕ) =>
      (List.range (grid.getD 0 []).length).map
        (fun (x : ℕ) => (⟨(x : Int), (y : Int)⟩ : Position)))
      = fun _ => (grid.getD 0 []).length := by
    funext y
    simp
  rw [h2, sum_const_list]
  simp [Nat.mul_comm]

lemma popMin_cons_none {n : Node} {ns : List Node} (hp : popMin ns = none) :
    popMin (n :: ns) = some (n, []) := by
  simp [popMin, hp]

lemma popMin_cons_some {n m : Node} {ns rest : List Node}
    (hp : popMin ns = some (m, rest)) :
    popMin (n :: ns) =
      if n.f_cost ≤ m.f_cost then some (n, ns) else some (m, n :: rest) := by
  simp [popMin, hp]

lemma popMin_eq_none {l : List Node} : popMin l = none ↔ l = [] := by
  cases l with
  | nil => simp [popMin]
  | cons n ns =>
    cases hp : popMin ns with
    | none => rw [popMin_cons_none hp]; simp
    | some r =>
      obtain ⟨m, rest⟩ := r
      rw [popMin_cons_some hp]
      split <;> simp

lemma popMin_spec {l : List Node} {n : Node} {rest : List Node}
    (h : popMin l = some (n, rest)) :
    (n :: rest).Perm l ∧ ∀ m ∈ l, n.f_cost ≤ m.f_cost := by
  induction l generalizing n rest with
  | nil => simp [popMin] at h
  | cons a as ih =>
    cases hp : popMin as with
    | none =>
      rw [popMin_cons_none hp] at h
      injection h with h1
      injection h1 with h2 h3
      subst h2
      subst h3
      have has : as = [] := popMin_eq_none.mp hp
      subst has
      refine ⟨List.Perm.refl _, ?_⟩
      intro m hm
      simp at hm
      subst hm
      exact le_refl _
    | some r =>
      obtain ⟨m, mrest⟩ := r
      rw [popMin_cons_some hp] at h
      obtain ⟨hperm, hmin⟩ := ih hp
      by_cases hle : a.f_cost ≤ m.f_cost
      · rw [if_pos hle] at h
        injection h with h1
        injection h1 with h2 h3
        subst h2
        subst h3
        refine ⟨List.Perm.refl _, ?_⟩
        intro z hz
        rcases List.mem_cons.mp hz with hz | hz
        · subst hz; exact le_refl _
        · exact le_trans hle (hmin z hz)
      · rw [if_neg hle] at h
        injection h with h1
        injection h1 with h2 h3
        subst h2
        subst h3
        refine ⟨?_, ?_⟩
        · exact (List.Perm.swap _ _ mrest).trans (List.Perm.cons a hperm)
        · intro z hz
          rcases List.mem_cons.mp hz with hz | hz
          · subst hz
            unfold Node.f_cost at hle ⊢
            omega
          · exact hmin z hz

/- One neighbour relaxation obligation: if q is a passable neighbour of
   p, then q carries a g value at most one above p's. -/
def RelaxedAt (grid : List (List TileType)) (a : AStar) (p q : Position) : Prop :=
  Adjacent q p → PassableAt grid q →
    ∃ vp w : Int, a.g_score p = some vp ∧ a.g_score q = some w ∧ w ≤ vp + 1

/- The loop invariant of astarLoop, with the relaxation obligation
   restricted by rel (during one expansion the node being expanded is
   excused until its four neighbours have been processed). -/
structure AInvCore (grid : List (List TileType)) (start goal : Position)
    (rel : Position → Prop) (a : AStar) : Prop where
  g_start : a.g_score start = some 0
  g_nonneg : ∀ p v, a.g_score p = some v → 0 ≤ v
  g_dom : ∀ p v, a.g_score p = some v → p = start ∨ PassableAt grid p
  cf_start : a.came_from start = none
  cf_spec : ∀ p q, a.came_from p = some q → Adjacent p q ∧ PassableAt grid p ∧
      ∃ vp vq : Int, a.g_score p = some vp ∧ a.g_score q = some vq ∧ vq < vp
  cf_dom : ∀ p v, p ≠ start → a.g_score p = some v → a.came_from p ≠ none
  closed_opt : ∀ p, a.closed_set p = true → ∃ v : ℕ, a.g_score p = some (v : Int) ∧
      OptDist grid start p v
  relaxed : ∀ p, a.closed_set p = true → rel p → ∀ q, RelaxedAt grid a p q
  open_cover : ∀ p v, a.g_score p = some v → a.closed_set p = false →
      ∃ n ∈ a.open_set, n.pos = p ∧ n.g_cost = v ∧ n.h_cost = calculate_distance p goal
  open_sound : ∀ n ∈ a.open_set, ∃ v : Int, a.g_score n.pos = some v ∧ v ≤ n.g_cost ∧
      n.h_cost = calculate_distance n.pos goal
  goal_open : a.closed_set goal = false

/- The full invariant: every closed node is fully relaxed. -/
def AInv (grid : List (List TileType)) (start goal : Position) (a : AStar) : Prop :=
  AInvCore grid start goal (fun _ => True) a

/- Every recorded g value is witnessed by an actual route whose length is
   at most the value, with pairwise-distinct cells all carrying g values
   bounded by it. -/
lemma g_realizes {grid : List (List TileType)} {start goal : Position}
    {rel : Position → Prop} {a : AStar} (inv : AInvCore grid start goal rel a) :
    ∀ (n : ℕ) (p : Position) (vi : Int), a.g_score p = some vi → vi.toNat ≤ n →
      ∃ l, IsRoute grid start p l ∧ ((l.length : Int) - 1) ≤ vi ∧ l.Nodup ∧
        ∀ x ∈ l, ∃ vx : Int, a.g_score x = some vx ∧ vx ≤ vi := by
  intro n
  induction n with
  | zero =>
    intro p vi hg hle
    have h0 : 0 ≤ vi := inv.g_nonneg p vi hg
    have hvi : vi = 0 := by omega
    subst hvi
    by_cases hps : p = start
    · subst hps
      refine ⟨[p], route_singleton grid p, by simp, by simp, ?_⟩
      intro x hx
      simp at hx
      subst hx
      exact ⟨0, hg, le_refl _⟩
    · exfalso
      have hcf := inv.cf_dom p 0 hps hg
      cases hq : a.came_from p with
      | none => exact hcf hq
      | some q =>
        obtain ⟨_, _, vp, vq, hgp, hgq, hlt⟩ := inv.cf_spec p q hq
        rw [hg] at hgp
        injection hgp with he
        have := inv.g_nonneg q vq hgq
        omega
  | succ n ih =>
    intro p vi hg hle
    by_cases hps : p = start
    · subst hps
      rw [inv.g_start] at hg
      injection hg with he
      refine ⟨[p], route_singleton grid p, by simp [← he], by simp, ?_⟩
      intro x hx
      simp at hx
      subst hx
      exact ⟨vi, by rw [inv.g_start, ← he], le_refl _⟩
    · cases hq : a.came_from p with
      | none => exact absurd hq (inv.cf_dom p vi hps hg)
      | some q =>
        obtain ⟨hadj, hpass, vp, vq, hgp, hgq, hlt⟩ := inv.cf_spec p q hq
        rw [hg] at hgp
        injection hgp with he
        subst he
        have hlt2 : vq < vi := hlt
        have h0q : 0 ≤ vq := inv.g_nonneg q vq hgq
        have hqn : vq.toNat ≤ n := by omega
        obtain ⟨l, hroute, hlen, hnodup, hmem⟩ := ih q vq hgq hqn
        refine ⟨l ++ [p], route_extend hroute p (Adjacent.symm2 hadj) hpass, ?_, ?_, ?_⟩
        · simp
          omega
        · rw [List.nodup_append]
          refine ⟨hnodup, by simp, ?_⟩
          intro x hx hxp
          simp at hxp
          subst hxp
          obtain ⟨vx, hgx, hvx⟩ := hmem x hx
          rw [hg] at hgx
          injection hgx with he2
          omega
        · intro x hx
          rcases List.mem_append.mp hx with hx2 | hx2
          · obtain ⟨vx, hgx, hvx⟩ := hmem x hx2
            exact ⟨vx, hgx, by omega⟩
          · rw [List.mem_singleton] at hx2
            subst hx2
            exact ⟨vi, hg, le_refl _⟩

lemma optDist_exists {grid : List (List TileType)} {start p : Position}
    (hreach : ∃ l, IsRoute grid start p l) : ∃ v : ℕ, OptDist grid start p v := by
  obtain ⟨l, hl⟩ := hreach
  have hne := route_nonempty hl
  have hpos : 1 ≤ l.length := by
    cases l with
    | nil => exact absurd rfl hne
    | cons x xs => simp
  have hne2 : { n : ℕ | ∃ l2, IsRoute grid start p l2 ∧ l2.length = n + 1 }.Nonempty :=
    ⟨l.length - 1, ⟨l, hl, by omega⟩⟩
  refine ⟨sInf { n : ℕ | ∃ l2, IsRoute grid start p l2 ∧ l2.length = n + 1 }, ?_, ?_⟩
  · exact Nat.sInf_mem hne2
  · intro m l2 h2 hlen2
    exact Nat.sInf_le ⟨l2, h2, hlen2⟩

lemma optDist_le_route {grid : List (List TileType)} {start p : Position} {v : ℕ}
    (hopt : OptDist grid start p v) {l : List Position} (hl : IsRoute grid start p l) :
    (v : Int) ≤ (l.length : Int) - 1 := by
  have hne := route_nonempty hl
  have hpos : 1 ≤ l.length := by
    cases l with
    | nil => exact absurd rfl hne
    | cons x xs => simp
  have := hopt.2 (l.length - 1) l hl (by omega)
  omega

lemma optDist_extend {grid : List (List TileType)} {start p q : Position} {v : ℕ}
    (hopt : OptDist grid start p v) (hadj : Adjacent q p) (hq : PassableAt grid q) :
    ∃ w : ℕ, OptDist grid start q w ∧ w ≤ v + 1 := by
  obtain ⟨l, hl, hlen⟩ := hopt.1
  have hext := route_extend hl q (Adjacent.symm2 hadj) hq
  obtain ⟨w, hw⟩ := optDist_exists ⟨_, hext⟩
  refine ⟨w, hw, ?_⟩
  have := hw.2 (v + 1) (l ++ [q]) hext (by simp [hlen])
  exact this

/- The heuristic changes by at most one per edge along a chain. -/
lemma h_chain_bound (goal : Position) :
    ∀ (l : List Position) (p z : Position),
    List.Chain' Adjacent (p :: l) → (p :: l).getLast? = some z →
    calculate_distance p goal ≤ (l.length : Int) + calculate_distance z goal := by
  intro l
  induction l with
  | nil =>
    intro p z hchain hlast
    simp at hlast
    subst hlast
    simp
  | cons b l2 ih =>
    intro p z hchain hlast
    have hab : Adjacent p b := (List.chain'_cons.mp hchain).1
    have h2 := ih b z (List.chain'_cons.mp hchain).2 (by simpa using hlast)
    have h3 := manhattan_consistent p b goal hab
    simp only [List.length_cons]
    push_cast
    omega

/- Walking an optimal route out of the closed region: some non-closed
   cell on the route carries a g value whose f value is bounded by the
   route cost plus the heuristic of the route's end. -/
lemma route_frontier {grid : List (List TileType)} {start goal : Position}
    {a : AStar} (inv : AInv grid start goal a) :
    ∀ (rest : List Position) (p : Position) (i : Int) (z : Position),
    List.Chain' Adjacent (p :: rest) → (∀ q ∈ rest, PassableAt grid q) →
    (∃ wp : Int, a.g_score p = some wp ∧ wp ≤ i) →
    (p :: rest).getLast? = some z → a.closed_set z = false →
    ∃ (u : Position) (w : Int), a.closed_set u = false ∧ a.g_score u = some w ∧
      w + calculate_distance u goal ≤ i + (rest.length : Int) + calculate_distance z goal := by
  intro rest
  induction rest with
  | nil =>
    intro p i z hchain hpass hg hlast hzopen
    simp at hlast
    subst hlast
    obtain ⟨wp, hgp, hwp⟩ := hg
    exact ⟨p, wp, hzopen, hgp, by simp; omega⟩
  | cons b rest2 ih =>
    intro p i z hchain hpass hg hlast hzopen
    obtain ⟨wp, hgp, hwp⟩ := hg
    by_cases hcp : a.closed_set p = true
    · have hab : Adjacent p b := (List.chain'_cons.mp hchain).1
      have hpb : PassableAt grid b := hpass b (by simp)
      obtain ⟨vp, wb, hgp2, hgb, hwb⟩ :=
        inv.relaxed p hcp trivial b (Adjacent.symm2 hab) hpb
      rw [hgp] at hgp2
      injection hgp2 with he
      obtain ⟨u, w, hu1, hu2, hu3⟩ := ih b (i + 1) z (List.chain'_cons.mp hchain).2
        (by intro q hq; exact hpass q (by simp [hq]))
        ⟨wb, hgb, by omega⟩ (by simpa using hlast) hzopen
      refine ⟨u, w, hu1, hu2, ?_⟩
      simp only [List.length_cons] at hu3 ⊢
      push_cast at hu3 ⊢
      omega
    · have hpopen : a.closed_set p = false := by
        cases hcl : a.closed_set p
        · rfl
        · exact absurd hcl hcp
      have hb := h_chain_bound goal (b :: rest2) p z hchain hlast
      refine ⟨p, wp, hpopen, hgp, ?_⟩
      omega

/- When a node not yet closed is popped, its recorded g value and its
   stored g cost both equal the optimal route cost to its position. -/
lemma pop_optimal {grid : List (List TileType)} {start goal : Position}
    {a : AStar} {n : Node} {rest : List Node} (inv : AInv grid start goal a)
    (hpop : popMin a.open_set = some (n, rest))
    (hfresh : a.closed_set n.pos = false) :
    ∃ v : ℕ, a.g_score n.pos = some (v : Int) ∧ OptDist grid start n.pos v ∧
      n.g_cost = (v : Int) := by
  obtain ⟨hperm, hmin⟩ := popMin_spec hpop
  have hnmem : n ∈ a.open_set := hperm.subset (List.mem_cons_self n rest)
  obtain ⟨v0, hg0, hv0le, hh⟩ := inv.open_sound n hnmem
  obtain ⟨l, hroute, hlen, _, _⟩ :=
    g_realizes inv v0.toNat n.pos v0 hg0 (le_refl _)
  obtain ⟨vstar, hopt⟩ := optDist_exists ⟨l, hroute⟩
  have hup : (vstar : Int) ≤ v0 := by
    have h1 := optDist_le_route hopt hroute
    omega
  obtain ⟨R, hR, hRlen⟩ := hopt.1
  have hRcons : R = start :: R.tail := by
    cases hRc : R with
    | nil => rw [hRc] at hR; simp [IsRoute] at hR
    | cons x xs =>
      have := hR.1
      rw [hRc] at this
      simp at this
      subst this
      simp
  have hchain : List.Chain' Adjacent (start :: R.tail) := by
    rw [← hRcons]
    exact hR.2.2.1
  have hpassT : ∀ q ∈ R.tail, PassableAt grid q := hR.2.2.2
  have hlast : (start :: R.tail).getLast? = some n.pos := by
    rw [← hRcons]
    exact hR.2.1
  obtain ⟨u, w, hu1, hu2, hu3⟩ := route_frontier inv R.tail start 0 n.pos
    hchain hpassT ⟨0, inv.g_start, le_refl _⟩ hlast hfresh
  obtain ⟨m, hm_mem, hm_pos, hm_g, hm_h⟩ := inv.open_cover u w hu2 hu1
  have hf := hmin m hm_mem
  have htail_len : (R.tail.length : Int) = (vstar : Int) := by
    have : R.length = R.tail.length + 1 := by rw [hRcons]; simp
    omega
  have hng : n.g_cost ≤ (vstar : Int) := by
    unfold Node.f_cost at hf
    rw [hh, hm_g, hm_h] at hf
    omega
  have heq : v0 = (vstar : Int) := by omega
  refine ⟨vstar, ?_, hopt, by omega⟩
  rw [hg0, heq]
lemma relaxDir_out_of_bounds {grid : List (List TileType)} {goal cur : Position}
    {a : AStar} {dir : Position}
    (hb : (cur.x + dir.x) < 0 ∨ (((grid.getD 0 []).length : Int) ≤ cur.x + dir.x)
      ∨ (cur.y + dir.y) < 0 ∨ ((grid.length : Int) ≤ cur.y + dir.y)) :
    relaxDir grid goal cur a dir = a := by
  unfold relaxDir
  rw [if_pos hb]

lemma relaxDir_closed {grid : List (List TileType)} {goal cur : Position}
    {a : AStar} {dir : Position}
    (hb : ¬((cur.x + dir.x) < 0 ∨ (((grid.getD 0 []).length : Int) ≤ cur.x + dir.x)
      ∨ (cur.y + dir.y) < 0 ∨ ((grid.length : Int) ≤ cur.y + dir.y)))
    (hcl : a.closed_set ⟨cur.x + dir.x, cur.y + dir.y⟩ = true) :
    relaxDir grid goal cur a dir = a := by
  unfold relaxDir
  rw [if_neg hb, if_pos hcl]

lemma relaxDir_impassable {grid : List (List TileType)} {goal cur : Position}
    {a : AStar} {dir : Position}
    (hb : ¬((cur.x + dir.x) < 0 ∨ (((grid.getD 0 []).length : Int) ≤ cur.x + dir.x)
      ∨ (cur.y + dir.y) < 0 ∨ ((grid.length : Int) ≤ cur.y + dir.y)))
    (hcl : a.closed_set ⟨cur.x + dir.x, cur.y + dir.y⟩ = false)
    (hpass : passableTile (gridGet grid (cur.x + dir.x) (cur.y + dir.y)) = false) :
    relaxDir grid goal cur a dir = a := by
  unfold relaxDir
  rw [if_neg hb, if_neg (by simp [hcl]), if_pos hpass]

lemma relaxDir_no_improve {grid : List (List TileType)} {goal cur : Position}
    {a : AStar} {dir : Position} {v : Int}
    (hb : ¬((cur.x + dir.x) < 0 ∨ (((grid.getD 0 []).length : Int) ≤ cur.x + dir.x)
      ∨ (cur.y + dir.y) < 0 ∨ ((grid.length : Int) ≤ cur.y + dir.y)))
    (hcl : a.closed_set ⟨cur.x + dir.x, cur.y + dir.y⟩ = false)
    (hpass : passableTile (gridGet grid (cur.x + dir.x) (cur.y + dir.y)) = true)
    (hgn : a.g_score ⟨cur.x + dir.x, cur.y + dir.y⟩ = some v)
    (hge : ¬((a.g_score cur).getD 0 + 1 < v)) :
    relaxDir grid goal cur a dir = a := by
  unfold relaxDir
  rw [if_neg hb, if_neg (by simp [hcl]), if_neg (by simp [hpass])]
  dsimp only
  rw [hgn]
  rw [if_neg (by simp [hge])]

lemma relaxDir_push_none {grid : List (List TileType)} {goal cur : Position}
    {a : AStar} {dir : Position}
    (hb : ¬((cur.x + dir.x) < 0 ∨ (((grid.getD 0 []).length : Int) ≤ cur.x + dir.x)
      ∨ (cur.y + dir.y) < 0 ∨ ((grid.length : Int) ≤ cur.y + dir.y)))
    (hcl : a.closed_set ⟨cur.x + dir.x, cur.y + dir.y⟩ = false)
    (hpass : passableTile (gridGet grid (cur.x + dir.x) (cur.y + dir.y)) = true)
    (hgn : a.g_score ⟨cur.x + dir.x, cur.y + dir.y⟩ = none) :
    relaxDir grid goal cur a dir =
      { open_set := (⟨⟨cur.x + dir.x, cur.y + dir.y⟩, (a.g_score cur).getD 0 + 1,
          calculate_distance ⟨cur.x + dir.x, cur.y + dir.y⟩ goal, cur⟩ : Node) :: a.open_set,
        closed_set := a.closed_set,
        came_from := fun p => if p = ⟨cur.x + dir.x, cur.y + dir.y⟩ then some cur
          else a.came_from p,
        g_score := fun p => if p = ⟨cur.x + dir.x, cur.y + dir.y⟩
          then some ((a.g_score cur).getD 0 + 1) else a.g_score p } := by
  unfold relaxDir
  rw [if_neg hb, if_neg (by simp [hcl]), if_neg (by simp [hpass])]
  dsimp only
  rw [hgn]
  rfl

lemma relaxDir_push_lt {grid : List (List TileType)} {goal cur : Position}
    {a : AStar} {dir : Position} {v : Int}
    (hb : ¬((cur.x + dir.x) < 0 ∨ (((grid.getD 0 []).length : Int) ≤ cur.x + dir.x)
      ∨ (cur.y + dir.y) < 0 ∨ ((grid.length : Int) ≤ cur.y + dir.y)))
    (hcl : a.closed_set ⟨cur.x + dir.x, cur.y + dir.y⟩ = false)
    (hpass : passableTile (gridGet grid (cur.x + dir.x) (cur.y + dir.y)) = true)
    (hgn : a.g_score ⟨cur.x + dir.x, cur.y + dir.y⟩ = some v)
    (hlt : (a.g_score cur).getD 0 + 1 < v) :
    relaxDir grid goal cur a dir =
      { open_set := (⟨⟨cur.x + dir.x, cur.y + dir.y⟩, (a.g_score cur).getD 0 + 1,
          calculate_distance ⟨cur.x + dir.x, cur.y + dir.y⟩ goal, cur⟩ : Node) :: a.open_set,
        closed_set := a.closed_set,
        came_from := fun p => if p = ⟨cur.x + dir.x, cur.y + dir.y⟩ then some cur
          else a.came_from p,
        g_score := fun p => if p = ⟨cur.x + dir.x, cur.y + dir.y⟩
          then some ((a.g_score cur).getD 0 + 1) else a.g_score p } := by
  unfold relaxDir
  rw [if_neg hb, if_neg (by simp [hcl]), if_neg (by simp [hpass])]
  dsimp only
  rw [hgn]
  rw [if_pos (by simp [hlt])]

lemma optDist_unique {grid : List (List TileType)} {start p : Position} {v w : ℕ}
    (h1 : OptDist grid start p v) (h2 : OptDist grid start p w) : v = w := by
  obtain ⟨l1, hl1, hlen1⟩ := h1.1
  obtain ⟨l2, hl2, hlen2⟩ := h2.1
  have ha := h1.2 w l2 hl2 hlen2
  have hb := h2.2 v l1 hl1 hlen1
  omega

/- Invariant preservation for a push of the neighbour nb with the new
   g value vD + 1 (both the fresh-discovery and the improvement case,
   captured by hcase). -/
lemma push_preserves {grid : List (List TileType)} {start goal cur : Position}
    {vD : ℕ} {a : AStar} (nb : Position)
    (hadj : Adjacent nb cur) (hnbpass : PassableAt grid nb)
    (hclf : a.closed_set nb = false)
    (hmid : AInvCore grid start goal (fun p => p ≠ cur) a)
    (hgc : a.g_score cur = some (vD : Int))
    (hcase : ∀ v : Int, a.g_score nb = some v → (vD : Int) + 1 < v) :
    AInvCore grid start goal (fun p => p ≠ cur)
      { open_set := (⟨nb, (vD : Int) + 1, calculate_distance nb goal, cur⟩ : Node) :: a.open_set,
        closed_set := a.closed_set,
        came_from := fun p => if p = nb then some cur else a.came_from p,
        g_score := fun p => if p = nb then some ((vD : Int) + 1) else a.g_score p } := by
  have hcurne : cur ≠ nb := (adjacent_ne hadj).symm
  have hnbstart : nb ≠ start := by
    intro he
    have h0 : a.g_score nb = some 0 := by rw [he]; exact hmid.g_start
    have := hcase 0 h0
    omega
  refine ⟨?_, ?_, ?_, ?_, ?_, ?_, ?_, ?_, ?_, ?_, ?_⟩
  · dsimp only
    rw [if_neg (Ne.symm hnbstart)]
    exact hmid.g_start
  · intro p v h
    dsimp only at h
    by_cases hp : p = nb
    · rw [if_pos hp] at h
      injection h with he
      omega
    · rw [if_neg hp] at h
      exact hmid.g_nonneg p v h
  · intro p v h
    dsimp only at h
    by_cases hp : p = nb
    · subst hp
      exact Or.inr hnbpass
    · rw [if_neg hp] at h
      exact hmid.g_dom p v h
  · dsimp only
    rw [if_neg (Ne.symm hnbstart)]
    exact hmid.cf_start
  · intro p q h
    dsimp only at h ⊢
    by_cases hp : p = nb
    · rw [if_pos hp] at h
      injection h with he
      subst he
      subst hp
      refine ⟨hadj, hnbpass, (vD : Int) + 1, (vD : Int), ?_, ?_, by omega⟩
      · rw [if_pos rfl]
      · rw [if_neg hcurne]
        exact hgc
    · rw [if_neg hp] at h
      obtain ⟨hadj2, hpass2, vp, vq, hgp, hgq, hlt⟩ := hmid.cf_spec p q h
      refine ⟨hadj2, hpass2, vp, ?_⟩
      rw [if_neg hp]
      by_cases hq : q = nb
      · refine ⟨(vD : Int) + 1, hgp, ?_, ?_⟩
        · rw [if_pos hq]
        · have := hcase vq (by rw [← hq]; exact hgq)
          omega
      · exact ⟨vq, hgp, by rw [if_neg hq]; exact hgq, hlt⟩
  · intro p v hps h
    dsimp only at h ⊢
    by_cases hp : p = nb
    · rw [if_pos hp]
      simp
    · rw [if_neg hp] at h
      rw [if_neg hp]
      exact hmid.cf_dom p v hps h
  · intro p hcp
    dsimp only
    have hp : p ≠ nb := by
      intro he
      rw [he, hclf] at hcp
      exact absurd hcp (by simp)
    rw [if_neg hp]
    exact hmid.closed_opt p hcp
  · intro p hcp hrel q hadjq hpassq
    have hp : p ≠ nb := by
      intro he
      rw [he, hclf] at hcp
      exact absurd hcp (by simp)
    obtain ⟨vp, w, hgp, hgq, hle⟩ := hmid.relaxed p hcp hrel q hadjq hpassq
    dsimp only
    rw [if_neg hp]
    by_cases hq : q = nb
    · refine ⟨vp, (vD : Int) + 1, hgp, by rw [if_pos hq], ?_⟩
      have := hcase w (by rw [← hq]; exact hgq)
      omega
    · exact ⟨vp, w, hgp, by rw [if_neg hq]; exact hgq, hle⟩
  · intro p v h hop
    dsimp only at h hop ⊢
    by_cases hp : p = nb
    · rw [if_pos hp] at h
      injection h with he
      refine ⟨⟨nb, (vD : Int) + 1, calculate_distance nb goal, cur⟩,
        List.mem_cons_self _ _, by rw [hp], by rw [← he], by rw [hp]⟩
    · rw [if_neg hp] at h
      obtain ⟨m, hm, h1, h2, h3⟩ := hmid.open_cover p v h hop
      exact ⟨m, List.mem_cons_of_mem _ hm, h1, h2, h3⟩
  · intro n2 hmem
    rcases List.mem_cons.mp hmem with hm | hm
    · subst hm
      dsimp only
      rw [if_pos rfl]
      exact ⟨(vD : Int) + 1, rfl, le_refl _, rfl⟩
    · obtain ⟨v, hgv, hle, hh⟩ := hmid.open_sound n2 hm
      dsimp only
      by_cases hq : n2.pos = nb
      · refine ⟨(vD : Int) + 1, by rw [if_pos hq], ?_, hh⟩
        have := hcase v (by rw [← hq]; exact hgv)
        omega
      · exact ⟨v, by rw [if_neg hq]; exact hgv, hle, hh⟩
  · exact hmid.goal_open

/- The full accounting for one neighbour direction of an expansion. -/
lemma relaxDir_step {grid : List (List TileType)} {start goal cur : Position}
    {vD : ℕ} {a : AStar} {dir : Position} (hdir : dir ∈ directions)
    (hmid : AInvCore grid start goal (fun p => p ≠ cur) a)
    (hgc : a.g_score cur = some (vD : Int))
    (hoc : OptDist grid start cur vD) :
    AInvCore grid start goal (fun p => p ≠ cur) (relaxDir grid goal cur a dir) ∧
    (relaxDir grid goal cur a dir).closed_set = a.closed_set ∧
    (relaxDir grid goal cur a dir).g_score cur = some (vD : Int) ∧
    (∀ p v, a.g_score p = some v →
      ∃ v2 : Int, (relaxDir grid goal cur a dir).g_score p = some v2 ∧ v2 ≤ v) ∧
    (PassableAt grid ⟨cur.x + dir.x, cur.y + dir.y⟩ →
      ∃ w : Int, (relaxDir grid goal cur a dir).g_score ⟨cur.x + dir.x, cur.y + dir.y⟩
        = some w ∧ w ≤ (vD : Int) + 1) ∧
    (relaxDir grid goal cur a dir).open_set.length ≤ a.open_set.length + 1 := by
  have hadj : Adjacent ⟨cur.x + dir.x, cur.y + dir.y⟩ cur :=
    (adjacent_iff_dir _ cur).mpr ⟨dir, hdir, rfl⟩
  have hcurne : cur ≠ ⟨cur.x + dir.x, cur.y + dir.y⟩ := (adjacent_ne hadj).symm
  by_cases hb : (cur.x + dir.x) < 0 ∨ (((grid.getD 0 []).length : Int) ≤ cur.x + dir.x)
      ∨ (cur.y + dir.y) < 0 ∨ ((grid.length : Int) ≤ cur.y + dir.y)
  · rw [relaxDir_out_of_bounds hb]
    refine ⟨hmid, rfl, hgc, fun p v h => ⟨v, h, le_refl _⟩, ?_, by omega⟩
    intro hp
    exfalso
    obtain ⟨⟨h1, h2, h3, h4⟩, _⟩ := hp
    dsimp only at h1 h2 h3 h4
    omega
  · by_cases hcl2 : a.closed_set ⟨cur.x + dir.x, cur.y + dir.y⟩ = true
    · rw [relaxDir_closed hb hcl2]
      refine ⟨hmid, rfl, hgc, fun p v h => ⟨v, h, le_refl _⟩, ?_, by omega⟩
      intro hp
      obtain ⟨Dn, hgDn, hoptn⟩ := hmid.closed_opt _ hcl2
      obtain ⟨w2, hw2, hle2⟩ := optDist_extend hoc hadj hp
      have heq : Dn = w2 := optDist_unique hoptn hw2
      exact ⟨(Dn : Int), hgDn, by omega⟩
    · have hclf : a.closed_set ⟨cur.x + dir.x, cur.y + dir.y⟩ = false := by
        cases h : a.closed_set ⟨cur.x + dir.x, cur.y + dir.y⟩
        · rfl
        · exact absurd h hcl2
      by_cases hpt : passableTile (gridGet grid (cur.x + dir.x) (cur.y + dir.y)) = true
      · have htent : (a.g_score cur).getD 0 + 1 = (vD : Int) + 1 := by rw [hgc]; rfl
        have hnbpass : PassableAt grid ⟨cur.x + dir.x, cur.y + dir.y⟩ := by
          refine ⟨?_, hpt⟩
          unfold InBoundsF
          dsimp only
          omega
        cases hgn : a.g_score ⟨cur.x + dir.x, cur.y + dir.y⟩ with
        | some v =>
          by_cases hlt : (a.g_score cur).getD 0 + 1 < v
          · rw [relaxDir_push_lt hb hclf hpt hgn hlt, htent]
            have hcase : ∀ w : Int,
                a.g_score ⟨cur.x + dir.x, cur.y + dir.y⟩ = some w → (vD : Int) + 1 < w := by
              intro w hw
              rw [hgn] at hw
              injection hw with he
              omega
            refine ⟨push_preserves _ hadj hnbpass hclf hmid hgc hcase, rfl, ?_, ?_, ?_, by simp⟩
            · dsimp only
              rw [if_neg hcurne]
              exact hgc
            · intro p w hw
              dsimp only
              by_cases hp : p = ⟨cur.x + dir.x, cur.y + dir.y⟩
              · refine ⟨(vD : Int) + 1, by rw [if_pos hp], ?_⟩
                have := hcase w (by rw [← hp]; exact hw)
                omega
              · exact ⟨w, by rw [if_neg hp]; exact hw, le_refl _⟩
            · intro _
              dsimp only
              exact ⟨(vD : Int) + 1, by rw [if_pos rfl], le_refl _⟩
          · rw [relaxDir_no_improve hb hclf hpt hgn hlt]
            refine ⟨hmid, rfl, hgc, fun p v2 h => ⟨v2, h, le_refl _⟩, ?_, by omega⟩
            intro _
            refine ⟨v, hgn, ?_⟩
            rw [htent] at hlt
            omega
        | none =>
          rw [relaxDir_push_none hb hclf hpt hgn, htent]
          have hcase : ∀ w : Int,
              a.g_score ⟨cur.x + dir.x, cur.y + dir.y⟩ = some w → (vD : Int) + 1 < w := by
            intro w hw
            rw [hgn] at hw
            exact absurd hw (by simp)
          refine ⟨push_preserves _ hadj hnbpass hclf hmid hgc hcase, rfl, ?_, ?_, ?_, by simp⟩
          · dsimp only
            rw [if_neg hcurne]
            exact hgc
          · intro p w hw
            dsimp only
            by_cases hp : p = ⟨cur.x + dir.x, cur.y + dir.y⟩
            · exfalso
              rw [hp, hgn] at hw
              exact absurd hw (by simp)
            · exact ⟨w, by rw [if_neg hp]; exact hw, le_refl _⟩
          · intro _
            dsimp only
            exact ⟨(vD : Int) + 1, by rw [if_pos rfl], le_refl _⟩
      · have hptf : passableTile (gridGet grid (cur.x + dir.x) (cur.y + dir.y)) = false := by
          cases h : passableTile (gridGet grid (cur.x + dir.x) (cur.y + dir.y))
          · rfl
          · exact absurd h hpt
        rw [relaxDir_impassable hb hclf hptf]
        refine ⟨hmid, rfl, hgc, fun p v h => ⟨v, h, le_refl _⟩, ?_, by omega⟩
        intro hp
        exact absurd hp.2 (by simp [hptf])

/- Accounting for the whole neighbour loop of one expansion. -/
lemma relax_fold {grid : List (List TileType)} {start goal cur : Position} {vD : ℕ} :
    ∀ (dirs : List Position) (a : AStar), (∀ d ∈ dirs, d ∈ directions) →
    AInvCore grid start goal (fun p => p ≠ cur) a →
    a.g_score cur = some (vD : Int) →
    OptDist grid start cur vD →
    AInvCore grid start goal (fun p => p ≠ cur) (dirs.foldl (relaxDir grid goal cur) a) ∧
    (dirs.foldl (relaxDir grid goal cur) a).closed_set = a.closed_set ∧
    (dirs.foldl (relaxDir grid goal cur) a).g_score cur = some (vD : Int) ∧
    (∀ p v, a.g_score p = some v →
      ∃ v2 : Int, (dirs.foldl (relaxDir grid goal cur) a).g_score p = some v2 ∧ v2 ≤ v) ∧
    (∀ d ∈ dirs, PassableAt grid ⟨cur.x + d.x, cur.y + d.y⟩ →
      ∃ w : Int, (dirs.foldl (relaxDir grid goal cur) a).g_score ⟨cur.x + d.x, cur.y + d.y⟩
        = some w ∧ w ≤ (vD : Int) + 1) ∧
    (dirs.foldl (relaxDir grid goal cur) a).open_set.length
      ≤ a.open_set.length + dirs.length := by
  intro dirs
  induction dirs with
  | nil =>
    intro a hd hmid hgc hoc
    refine ⟨hmid, rfl, hgc, fun p v h => ⟨v, h, le_refl _⟩, ?_, by simp⟩
    intro d hd2
    simp at hd2
  | cons d ds ih =>
    intro a hd hmid hgc hoc
    have hdmem : d ∈ directions := hd d (List.mem_cons_self d ds)
    obtain ⟨m1, m2, m3, m4, m5, m6⟩ := relaxDir_step hdmem hmid hgc hoc
    obtain ⟨r1, r2, r3, r4, r5, r6⟩ :=
      ih (relaxDir grid goal cur a d) (fun d2 hd2 => hd d2 (List.mem_cons_of_mem d hd2))
        m1 m3 hoc
    rw [List.foldl_cons]
    refine ⟨r1, by rw [r2, m2], r3, ?_, ?_, ?_⟩
    · intro p v h
      obtain ⟨v1, h1, hle1⟩ := m4 p v h
      obtain ⟨v2, h2, hle2⟩ := r4 p v1 h1
      exact ⟨v2, h2, le_trans hle2 hle1⟩
    · intro d2 hd2 hpass
      rcases List.mem_cons.mp hd2 with he | hm
      · subst he
        obtain ⟨w, hw, hwle⟩ := m5 hpass
        obtain ⟨w2, hw2, hwle2⟩ := r4 _ w hw
        exact ⟨w2, hw2, le_trans hwle2 hwle⟩
      · exact r5 d2 hm hpass
    · calc (ds.foldl (relaxDir grid goal cur) (relaxDir grid goal cur a d)).open_set.length
          ≤ (relaxDir grid goal cur a d).open_set.length + ds.length := r6
        _ ≤ a.open_set.length + 1 + ds.length := by omega
        _ = a.open_set.length + (d :: ds).length := by simp; omega

/- The termination measure of the search loop. -/
def astarMeasure (grid : List (List TileType)) (start : Position) (a : AStar) : ℕ :=
  a.open_set.length +
    5 * ((cellsList grid start).filter (fun p => !a.closed_set p)).length + 1

lemma filter_update_count :
    ∀ (L : List Position), L.Nodup → ∀ (closed : Position → Bool) (c : Position),
    c ∈ L → closed c = false →
    (L.filter (fun p => !(if p = c then true else closed p))).length + 1 =
      (L.filter (fun p => !closed p)).length := by
  intro L
  induction L with
  | nil => intro _ closed c hc; simp at hc
  | cons a L2 ih =>
    intro hnd closed c hc hcf
    have hnd2 := List.nodup_cons.mp hnd
    by_cases hac : a = c
    · subst hac
      have hfeq : L2.filter (fun p => !(if p = a then true else closed p)) =
          L2.filter (fun p => !closed p) := by
        apply List.filter_congr
        intro x hx
        have hxa : x ≠ a := by
          intro he
          subst he
          exact hnd2.1 hx
        simp [hxa]
      rw [List.filter_cons, List.filter_cons, hfeq]
      simp [hcf]
    · have hc2 : c ∈ L2 := by
        rcases List.mem_cons.mp hc with he | hm
        · exact absurd he.symm hac
        · exact hm
      rw [List.filter_cons, List.filter_cons]
      have hsame : (!(if a = c then true else closed a)) = !closed a := by
        simp [hac]
      rw [hsame]
      have hrec := ih hnd2.2 closed c hc2 hcf
      cases hca : closed a with
      | false =>
        simp only [hca, Bool.not_false]
        rw [if_pos trivial, if_pos trivial]
        simp only [List.length_cons]
        omega
      | true =>
        simp only [hca, Bool.not_true]
        rw [if_neg (by decide), if_neg (by decide)]
        exact hrec

lemma filter_congr_count (L : List Position) (f g : Position → Bool)
    (h : ∀ p ∈ L, f p = g p) :
    (L.filter (fun p => !f p)).length = (L.filter (fun p => !g p)).length := by
  have : L.filter (fun p => !f p) = L.filter (fun p => !g p) := by
    apply List.filter_congr
    intro x hx
    rw [h x hx]
  rw [this]

lemma foldl_id {f : AStar → Position → AStar} :
    ∀ (l : List Position) (a : AStar), (∀ d ∈ l, f a d = a) → l.foldl f a = a := by
  intro l
  induction l with
  | nil => intro a h; rfl
  | cons d ds ih =>
    intro a h
    rw [List.foldl_cons, h d (List.mem_cons_self d ds)]
    exact ih a (fun d2 hd2 => h d2 (List.mem_cons_of_mem d hd2))

/- One full iteration of the while loop body (a pop that does not hit the
   goal) preserves the invariant and decreases the measure. -/
lemma expansion_ok {grid : List (List TileType)} {start goal : Position}
    {a : AStar} {n : Node} {rest : List Node}
    (inv : AInv grid start goal a) (hpop : popMin a.open_set = some (n, rest))
    (hgoal : ¬(n.pos = goal)) :
    AInv grid start goal (directions.foldl (relaxDir grid goal n.pos)
      ⟨rest, fun p => if p = n.pos then true else a.closed_set p,
        a.came_from, a.g_score⟩) ∧
    astarMeasure grid start (directions.foldl (relaxDir grid goal n.pos)
      ⟨rest, fun p => if p = n.pos then true else a.closed_set p,
        a.came_from, a.g_score⟩) + 1 ≤ astarMeasure grid start a := by
  obtain ⟨hperm, hmin⟩ := popMin_spec hpop
  have hopenlen : a.open_set.length = rest.length + 1 := by
    rw [← hperm.length_eq]
    simp
  have hnmem : n ∈ a.open_set := hperm.subset (List.mem_cons_self n rest)
  obtain ⟨v0, hg0, hv0, hh0⟩ := inv.open_sound n hnmem
  have hcells : n.pos ∈ cellsList grid start := by
    rw [mem_cellsList]
    rcases inv.g_dom n.pos v0 hg0 with h | h
    · exact Or.inl h
    · exact Or.inr h.1
  have hrestsub : ∀ m ∈ rest, m ∈ a.open_set :=
    fun m hm => hperm.subset (List.mem_cons_of_mem n hm)
  have hgoalne : goal ≠ n.pos := fun he => hgoal he.symm
  cases hfr : a.closed_set n.pos with
  | false =>
    obtain ⟨vD, hgD, hoptD, hngD⟩ := pop_optimal inv hpop hfr
    have hmid : AInvCore grid start goal (fun p => p ≠ n.pos)
        (⟨rest, fun p => if p = n.pos then true else a.closed_set p,
          a.came_from, a.g_score⟩ : AStar) := by
      refine ⟨inv.g_start, inv.g_nonneg, inv.g_dom, inv.cf_start, inv.cf_spec,
        inv.cf_dom, ?_, ?_, ?_, ?_, ?_⟩
      · intro p hcp
        dsimp only at hcp
        by_cases hp : p = n.pos
        · subst hp
          exact ⟨vD, hgD, hoptD⟩
        · rw [if_neg hp] at hcp
          exact inv.closed_opt p hcp
      · intro p hcp hrel q
        dsimp only at hcp
        rw [if_neg hrel] at hcp
        exact inv.relaxed p hcp trivial q
      · intro p v h hop
        dsimp only at hop
        have hpne : p ≠ n.pos := by
          intro he
          rw [if_pos he] at hop
          exact absurd hop (by simp)
        rw [if_neg hpne] at hop
        obtain ⟨m, hm, hm1, hm2, hm3⟩ := inv.open_cover p v h hop
        rcases List.mem_cons.mp (hperm.mem_iff.mpr hm) with he | hm2b
        · subst he
          exact absurd hm1.symm hpne
        · exact ⟨m, hm2b, hm1, hm2, hm3⟩
      · intro m hm
        exact inv.open_sound m (hrestsub m hm)
      · dsimp only
        rw [if_neg hgoalne]
        exact inv.goal_open
    obtain ⟨f1, f2, f3, f4, f5, f6⟩ :=
      relax_fold directions
        (⟨rest, fun p => if p = n.pos then true else a.closed_set p,
          a.came_from, a.g_score⟩ : AStar)
        (fun d hd => hd) hmid hgD hoptD
    constructor
    · refine ⟨f1.g_start, f1.g_nonneg, f1.g_dom, f1.cf_start, f1.cf_spec, f1.cf_dom,
        f1.closed_opt, ?_, f1.open_cover, f1.open_sound, f1.goal_open⟩
      intro p hcp _ q hadjq hpassq
      by_cases hp : p = n.pos
      · subst hp
        obtain ⟨d, hd, he⟩ := (adjacent_iff_dir q n.pos).mp hadjq
        subst he
        obtain ⟨w, hw, hwle⟩ := f5 d hd hpassq
        exact ⟨(vD : Int), w, f3, hw, by omega⟩
      · exact f1.relaxed p hcp hp q hadjq hpassq
    · unfold astarMeasure
      have hlc : (((cellsList grid start).filter (fun p =>
          !(directions.foldl (relaxDir grid goal n.pos)
            (⟨rest, fun p => if p = n.pos then true else a.closed_set p,
              a.came_from, a.g_score⟩ : AStar)).closed_set p)).length) + 1 =
          ((cellsList grid start).filter (fun p => !a.closed_set p)).length := by
        rw [filter_congr_count _ _
          (fun p => if p = n.pos then true else a.closed_set p)
          (fun p hp => by rw [f2])]
        exact filter_update_count (cellsList grid start) (cellsList_nodup grid start)
          a.closed_set n.pos hcells hfr
      have hdl : directions.length = 4 := rfl
      rw [hdl] at f6
      have hrl : ((⟨rest, fun p => if p = n.pos then true else a.closed_set p,
        a.came_from, a.g_score⟩ : AStar)).open_set.length = rest.length := rfl
      omega
  | true =>
    have hpteq : ∀ p, (if p = n.pos then true else a.closed_set p) = a.closed_set p := by
      intro p
      by_cases hp : p = n.pos
      · rw [if_pos hp, hp, hfr]
      · rw [if_neg hp]
    have hinv1 : AInv grid start goal
        (⟨rest, fun p => if p = n.pos then true else a.closed_set p,
          a.came_from, a.g_score⟩ : AStar) := by
      refine ⟨inv.g_start, inv.g_nonneg, inv.g_dom, inv.cf_start, inv.cf_spec,
        inv.cf_dom, ?_, ?_, ?_, ?_, ?_⟩
      · intro p hcp
        dsimp only at hcp
        rw [hpteq p] at hcp
        exact inv.closed_opt p hcp
      · intro p hcp _ q
        dsimp only at hcp
        rw [hpteq p] at hcp
        exact inv.relaxed p hcp trivial q
      · intro p v h hop
        dsimp only at hop
        rw [hpteq p] at hop
        obtain ⟨m, hm, hm1, hm2, hm3⟩ := inv.open_cover p v h hop
        rcases List.mem_cons.mp (hperm.mem_iff.mpr hm) with he | hm2b
        · subst he
          rw [← hm1, hfr] at hop
          exact absurd hop (by simp)
        · exact ⟨m, hm2b, hm1, hm2, hm3⟩
      · intro m hm
        exact inv.open_sound m (hrestsub m hm)
      · dsimp only
        rw [hpteq goal]
        exact inv.goal_open
    have hid : ∀ d ∈ directions,
        relaxDir grid goal n.pos
          (⟨rest, fun p => if p = n.pos then true else a.closed_set p,
            a.came_from, a.g_score⟩ : AStar) d =
        (⟨rest, fun p => if p = n.pos then true else a.closed_set p,
          a.came_from, a.g_score⟩ : AStar) := by
      intro d hd
      by_cases hb : (n.pos.x + d.x) < 0 ∨ (((grid.getD 0 []).length : Int) ≤ n.pos.x + d.x)
          ∨ (n.pos.y + d.y) < 0 ∨ ((grid.length : Int) ≤ n.pos.y + d.y)
      · exact relaxDir_out_of_bounds hb
      · by_cases hclnb : (if (⟨n.pos.x + d.x, n.pos.y + d.y⟩ : Position) = n.pos then true
            else a.closed_set ⟨n.pos.x + d.x, n.pos.y + d.y⟩) = true
        · exact relaxDir_closed hb hclnb
        · have hclf : (if (⟨n.pos.x + d.x, n.pos.y + d.y⟩ : Position) = n.pos then true
              else a.closed_set ⟨n.pos.x + d.x, n.pos.y + d.y⟩) = false := by
            cases hcc : (if (⟨n.pos.x + d.x, n.pos.y + d.y⟩ : Position) = n.pos then true
                else a.closed_set ⟨n.pos.x + d.x, n.pos.y + d.y⟩)
            · rfl
            · exact absurd hcc hclnb
          by_cases hpt : passableTile (gridGet grid (n.pos.x + d.x) (n.pos.y + d.y)) = true
          · have hadj : Adjacent ⟨n.pos.x + d.x, n.pos.y + d.y⟩ n.pos :=
              (adjacent_iff_dir _ n.pos).mpr ⟨d, hd, rfl⟩
            have hpassnb : PassableAt grid ⟨n.pos.x + d.x, n.pos.y + d.y⟩ := by
              refine ⟨?_, hpt⟩
              unfold InBoundsF
              dsimp only
              omega
            obtain ⟨vp, w, hgp, hgw, hle⟩ :=
              inv.relaxed n.pos hfr trivial _ hadj hpassnb
            refine relaxDir_no_improve hb hclf hpt hgw ?_
            rw [hgp]
            simp only [Option.getD_some]
            omega
          · have hptf : passableTile (gridGet grid (n.pos.x + d.x) (n.pos.y + d.y)) = false := by
              cases hcc : passableTile (gridGet grid (n.pos.x + d.x) (n.pos.y + d.y))
              · rfl
              · exact absurd hcc hpt
            exact relaxDir_impassable hb hclf hptf
    rw [foldl_id directions _ hid]
    refine ⟨hinv1, ?_⟩
    unfold astarMeasure
    have hlc := filter_congr_count (cellsList grid start)
      (fun p => if p = n.pos then true else a.closed_set p) a.closed_set
      (fun p hp => hpteq p)
    simp only [] at hlc
    have hrl : ((⟨rest, fun p => if p = n.pos then true else a.closed_set p,
      a.came_from, a.g_score⟩ : AStar)).open_set.length = rest.length := rfl
    dsimp only
    omega

/- Total correctness of the search loop: with the invariant and enough
   fuel, the loop either reports unreachability truthfully, or stops in a
   state whose came_from map it hands out together with an optimal g
   value for the goal. -/
lemma astarLoop_ok {grid : List (List TileType)} {start goal : Position} :
    ∀ (fuel : ℕ) (a : AStar), AInv grid start goal a →
    astarMeasure grid start a ≤ fuel →
    (astarLoop grid goal fuel a = some none ∧ ∀ l, ¬ IsRoute grid start goal l) ∨
    (∃ (a2 : AStar) (v : ℕ), astarLoop grid goal fuel a = some (some a2.came_from) ∧
      AInv grid start goal a2 ∧ a2.g_score goal = some (v : Int) ∧
      OptDist grid start goal v) := by
  intro fuel
  induction fuel with
  | zero =>
    intro a inv hfuel
    exfalso
    have : 1 ≤ astarMeasure grid start a := by
      unfold astarMeasure
      omega
    omega
  | succ fuel ih =>
    intro a inv hfuel
    cases hp : popMin a.open_set with
    | none =>
      have heq : astarLoop grid goal (fuel + 1) a = some none := by
        simp only [astarLoop, hp]
      left
      refine ⟨heq, ?_⟩
      intro l hl
      have hopen : a.open_set = [] := popMin_eq_none.mp hp
      have hgc : ∀ p (v : Int), a.g_score p = some v → a.closed_set p = true := by
        intro p v h
        cases hc : a.closed_set p with
        | false =>
          obtain ⟨m, hm, _⟩ := inv.open_cover p v h hc
          rw [hopen] at hm
          simp at hm
        | true => rfl
      have hwalk : ∀ (restl : List Position) (p2 : Position), a.closed_set p2 = true →
          List.Chain' Adjacent (p2 :: restl) → (∀ q ∈ restl, PassableAt grid q) →
          ∀ z, (p2 :: restl).getLast? = some z → a.closed_set z = true := by
        intro restl
        induction restl with
        | nil =>
          intro p2 hc _ _ z hz
          simp at hz
          subst hz
          exact hc
        | cons b r2 ih2 =>
          intro p2 hc hchain hpass z hz
          have hadj : Adjacent p2 b := (List.chain'_cons.mp hchain).1
          have hpb : PassableAt grid b := hpass b (by simp)
          obtain ⟨vp, w, _, hgw, _⟩ :=
            inv.relaxed p2 hc trivial b (Adjacent.symm2 hadj) hpb
          exact ih2 b (hgc b w hgw) (List.chain'_cons.mp hchain).2
            (fun q hq => hpass q (by simp [hq])) z (by simpa using hz)
      have hlcons : l = start :: l.tail := by
        cases hlc : l with
        | nil => rw [hlc] at hl; simp [IsRoute] at hl
        | cons x xs =>
          have := hl.1
          rw [hlc] at this
          simp at this
          subst this
          simp
      have hchain : List.Chain' Adjacent (start :: l.tail) := by
        rw [← hlcons]
        exact hl.2.2.1
      have hlast : (start :: l.tail).getLast? = some goal := by
        rw [← hlcons]
        exact hl.2.1
      have hcg := hwalk l.tail start (hgc start 0 inv.g_start) hchain hl.2.2.2 goal hlast
      rw [inv.goal_open] at hcg
      exact absurd hcg (by simp)
    | some r =>
      obtain ⟨n, rest⟩ := r
      have heq : astarLoop grid goal (fuel + 1) a =
          (if n.pos = goal then some (some a.came_from)
           else astarLoop grid goal fuel (directions.foldl (relaxDir grid goal n.pos)
             ⟨rest, fun p => if p = n.pos then true else a.closed_set p,
               a.came_from, a.g_score⟩)) := by
        simp only [astarLoop, hp]
      by_cases hg : n.pos = goal
      · right
        rw [heq, if_pos hg]
        have hfresh : a.closed_set n.pos = false := by
          rw [hg]
          exact inv.goal_open
        obtain ⟨v, hgv, hopt, _⟩ := pop_optimal inv hp hfresh
        exact ⟨a, v, rfl, inv, by rw [← hg]; exact hgv, hg ▸ hopt⟩
      · rw [heq, if_neg hg]
        obtain ⟨inv2, hmeas⟩ := expansion_ok inv hp hg
        exact ih _ inv2 (by omega)

/- Correctness of the came_from walk: with fuel above the g value of the
   walked-from cell, reconstruct_loop produces the realized route. -/
lemma reconstruct_loop_ok {grid : List (List TileType)} {start goal : Position}
    {a : AStar} (inv : AInv grid start goal a) :
    ∀ (n : ℕ) (p : Position) (vi : Int), a.g_score p = some vi → vi.toNat ≤ n →
    ∀ (fuel : ℕ) (acc : List Position), vi.toNat + 1 ≤ fuel →
      ∃ l : List Position, reconstruct_loop a.came_from start fuel p acc = l ++ acc ∧
        IsRoute grid start p (start :: l) ∧ ((l.length : Int)) ≤ vi := by
  intro n
  induction n with
  | zero =>
    intro p vi hg hn fuel acc hfuel
    have h0 : 0 ≤ vi := inv.g_nonneg p vi hg
    have hvi : vi = 0 := by omega
    subst hvi
    by_cases hps : p = start
    · subst hps
      obtain ⟨f2, rfl⟩ : ∃ f2, fuel = f2 + 1 := ⟨fuel - 1, by omega⟩
      refine ⟨[], ?_, route_singleton grid p, by simp⟩
      simp [reconstruct_loop]
    · exfalso
      have hcf := inv.cf_dom p 0 hps hg
      cases hq : a.came_from p with
      | none => exact hcf hq
      | some q =>
        obtain ⟨_, _, vp, vq, hgp, hgq, hlt⟩ := inv.cf_spec p q hq
        rw [hg] at hgp
        injection hgp with he
        have := inv.g_nonneg q vq hgq
        omega
  | succ n ih =>
    intro p vi hg hn fuel acc hfuel
    have h0 : 0 ≤ vi := inv.g_nonneg p vi hg
    by_cases hps : p = start
    · subst hps
      obtain ⟨f2, rfl⟩ : ∃ f2, fuel = f2 + 1 := ⟨fuel - 1, by omega⟩
      refine ⟨[], ?_, route_singleton grid p, by simp; omega⟩
      simp [reconstruct_loop]
    · cases hq : a.came_from p with
      | none => exact absurd hq (inv.cf_dom p vi hps hg)
      | some q =>
        obtain ⟨hadj, hpass, vp, vq, hgp, hgq, hlt⟩ := inv.cf_spec p q hq
        rw [hg] at hgp
        injection hgp with he
        subst he
        have h0q : 0 ≤ vq := inv.g_nonneg q vq hgq
        obtain ⟨f2, rfl⟩ : ∃ f2, fuel = f2 + 1 := ⟨fuel - 1, by omega⟩
        have hstep : reconstruct_loop a.came_from start (f2 + 1) p acc =
            reconstruct_loop a.came_from start f2 q (p :: acc) := by
          simp only [reconstruct_loop, hq]
          rw [if_neg hps]
        obtain ⟨l, hle, hroute, hlen⟩ :=
          ih q vq hgq (by omega) f2 (p :: acc) (by omega)
        refine ⟨l ++ [p], ?_, ?_, ?_⟩
        · rw [hstep, hle]
          simp
        · have := route_extend hroute p (Adjacent.symm2 hadj) hpass
          simpa using this
        · simp
          omega

/- A g-value recorded for an optimal node bounds the number of distinct
   cells, so the fixed fuel is enough for the walk. -/
lemma optval_le_cells {grid : List (List TileType)} {start goal : Position}
    {a : AStar} (inv : AInv grid start goal a) {p : Position} {v : ℕ}
    (hg : a.g_score p = some (v : Int)) (hopt : OptDist grid start p v) :
    v + 1 ≤ (cellsList grid start).length := by
  obtain ⟨l, hroute, hlen, hnodup, _⟩ :=
    g_realizes inv v p (v : Int) hg (by simp)
  have hlcons : l = start :: l.tail := by
    cases hlc : l with
    | nil =>
      rw [hlc] at hroute
      simp [IsRoute] at hroute
    | cons x xs =>
      have := hroute.1
      rw [hlc] at this
      simp at this
      subst this
      simp
  have hsub : ∀ x ∈ l, x ∈ cellsList grid start := by
    intro x hx
    rw [mem_cellsList]
    rw [hlcons] at hx
    rcases List.mem_cons.mp hx with he | hm
    · exact Or.inl he
    · exact Or.inr ((hroute.2.2.2 x (by rw [hlcons]; simpa using hm)).1)
  have h1 : l.toFinset.card = l.length := List.toFinset_card_of_nodup hnodup
  have h2 : l.toFinset ⊆ (cellsList grid start).toFinset := by
    intro x hx
    rw [List.mem_toFinset] at hx ⊢
    exact hsub x hx
  have h3 : l.length ≤ (cellsList grid start).length := by
    calc l.length = l.toFinset.card := h1.symm
      _ ≤ (cellsList grid start).toFinset.card := Finset.card_le_card h2
      _ ≤ (cellsList grid start).length := List.toFinset_card_le _
  have h4 := optDist_le_route hopt hroute
  omega

/- The search state find_path starts from. -/
def initAStar (start goal : Position) : AStar :=
  { open_set := [⟨start, 0, calculate_distance start goal, ⟨0, 0⟩⟩],
    closed_set := fun _ => false,
    came_from := fun _ => none,
    g_score := fun p => if p = start then some 0 else none }

lemma find_path_eq (start goal : Position) (grid : List (List TileType)) :
    find_path start goal grid =
      match astarLoop grid goal (astarFuel grid) (initAStar start goal) with
      | some (some cf) => reconstruct_path cf start goal (astarFuel grid)
      | _ => [] := rfl

lemma init_inv (grid : List (List TileType)) (start goal : Position) :
    AInv grid start goal (initAStar start goal) := by
  refine ⟨?_, ?_, ?_, ?_, ?_, ?_, ?_, ?_, ?_, ?_, ?_⟩
  · simp [initAStar]
  · intro p v hg
    simp only [initAStar] at hg
    by_cases hp : p = start
    · rw [if_pos hp] at hg
      injection hg with he
      omega
    · rw [if_neg hp] at hg
      exact absurd hg (by simp)
  · intro p v hg
    simp only [initAStar] at hg
    by_cases hp : p = start
    · exact Or.inl hp
    · rw [if_neg hp] at hg
      exact absurd hg (by simp)
  · rfl
  · intro p q hq
    exact absurd hq (by simp [initAStar])
  · intro p v hps hg
    simp only [initAStar, if_neg hps] at hg
    exact absurd hg (by simp)
  · intro p hc
    exact absurd hc (by simp [initAStar])
  · intro p hc
    exact absurd hc (by simp [initAStar])
  · intro p v hg _
    simp only [initAStar] at hg
    by_cases hp : p = start
    · subst hp
      rw [if_pos rfl] at hg
      injection hg with he
      refine ⟨⟨p, 0, calculate_distance p goal, ⟨0, 0⟩⟩, by simp [initAStar], rfl, ?_, rfl⟩
      exact he
    · rw [if_neg hp] at hg
      exact absurd hg (by simp)
  · intro n hn
    simp only [initAStar, List.mem_singleton] at hn
    subst hn
    exact ⟨0, by simp [initAStar], by simp, rfl⟩
  · rfl

lemma init_measure (grid : List (List TileType)) (start goal : Position) :
    astarMeasure grid start (initAStar start goal) ≤ astarFuel grid := by
  unfold astarMeasure astarFuel
  have h1 : ((cellsList grid start).filter
      (fun p => !(initAStar start goal).closed_set p)).length ≤
      (cellsList grid start).length := List.length_filter_le _ _
  have h2 := cellsList_length grid start
  have h3 : (initAStar start goal).open_set.length = 1 := rfl
  omega

lemma isRoute_iff_isPath {grid : List (List TileType)} {start goal : Position}
    {l : List Position} (hs : PassableAt grid start) :
    IsRoute grid start goal l ↔ IsPath grid start goal l := by
  unfold IsRoute IsPath
  constructor
  · rintro ⟨h1, h2, h3, h4⟩
    refine ⟨h1, h2, h3, ?_⟩
    intro p hp
    cases l with
    | nil => simp at hp
    | cons x xs =>
      simp at h1
      subst h1
      rcases List.mem_cons.mp hp with he | hm
      · subst he
        exact hs
      · exact h4 p hm
  · rintro ⟨h1, h2, h3, h4⟩
    refine ⟨h1, h2, h3, ?_⟩
    intro p hp
    cases l with
    | nil => simp at hp
    | cons x xs => exact h4 p (List.mem_cons_of_mem x hp)

/- When start itself is passable, the minimum over spec paths equals the
   optimal route value computed by the search. -/
lemma distSP_eq {grid : List (List TileType)} {start goal : Position} {v : ℕ}
    (hs : PassableAt grid start) (hopt : OptDist grid start goal v) :
    distSP grid start goal = v := by
  unfold distSP
  obtain ⟨l, hl, hlen⟩ := hopt.1
  have hmem : v ∈ pathLens grid start goal :=
    ⟨l, (isRoute_iff_isPath hs).mp hl, hlen⟩
  apply le_antisymm
  · exact Nat.sInf_le hmem
  · have hne : (pathLens grid start goal).Nonempty := ⟨v, hmem⟩
    obtain ⟨l2, hl2, hlen2⟩ := Nat.sInf_mem hne
    exact hopt.2 _ l2 ((isRoute_iff_isPath hs).mpr hl2) hlen2

/-- C1: For every grid and every (start, goal) pair connected by a sequence of
4-adjacent passable cells (every tile kind except Empty), find_path(start,
goal, grid) returns a sequence that begins with start, ends with goal, in
which every consecutive pair of positions is 4-adjacent, and whose length
minus 1 equals the minimum number of moves over passable cells from start to
goal (distSP, the infimum of edge counts over passable paths). -/
theorem C1_find_path_optimal (grid : List (List TileType)) (start goal : Position)
    (hconn : ∃ l, IsPath grid start goal l) :
    (find_path start goal grid).head? = some start ∧
    (find_path start goal grid).getLast? = some goal ∧
    List.Chain' Adjacent (find_path start goal grid) ∧
    (find_path start goal grid).length = distSP grid start goal + 1 := by
  obtain ⟨l0, hl0⟩ := hconn
  have hne : l0 ≠ [] := by
    intro he
    subst he
    simp [IsPath] at hl0
  have hs : PassableAt grid start := by
    cases hlc : l0 with
    | nil => exact absurd hlc hne
    | cons x xs =>
      have h1 := hl0.1
      rw [hlc] at h1
      simp at h1
      subst h1
      exact hl0.2.2.2 x (by rw [hlc]; exact List.mem_cons_self x xs)
  have hroute0 : IsRoute grid start goal l0 := (isRoute_iff_isPath hs).mpr hl0
  rcases astarLoop_ok (astarFuel grid) (initAStar start goal)
      (init_inv grid start goal) (init_measure grid start goal) with
    ⟨_, hno⟩ | ⟨a2, v, heq, inv2, hgv, hopt⟩
  · exact absurd hroute0 (hno l0)
  · have hvc : v + 1 ≤ (cellsList grid start).length := optval_le_cells inv2 hgv hopt
    have hfuel : v + 1 ≤ astarFuel grid := by
      have h2 := cellsList_length grid start
      unfold astarFuel
      omega
    obtain ⟨lr, hre, hroute, hlen⟩ :=
      reconstruct_loop_ok inv2 v goal ((v : ℕ) : Int) hgv (by simp) (astarFuel grid) []
        (by simpa using hfuel)
    have h1 : find_path start goal grid =
        reconstruct_path a2.came_from start goal (astarFuel grid) := by
      rw [find_path_eq, heq]
    have hfp : find_path start goal grid = start :: lr := by
      rw [h1]
      unfold reconstruct_path
      rw [hre, List.append_nil]
    have hd : distSP grid start goal = v := distSP_eq hs hopt
    have hge := optDist_le_route hopt hroute
    have hlen2 : lr.length = v := by
      simp only [List.length_cons] at hge
      push_cast at hge hlen
      omega
    rw [hfp, hd]
    refine ⟨rfl, hroute.2.1, hroute.2.2.1, ?_⟩
    simp [hlen2]

def gridC1 : List (List TileType) :=
  [[TileType.ROAD, TileType.ROAD], [TileType.EMPTY, TileType.ROAD]]

lemma gridC1_path : IsPath gridC1 ⟨0, 0⟩ ⟨1, 1⟩ [⟨0, 0⟩, ⟨1, 0⟩, ⟨1, 1⟩] := by
  unfold IsPath
  refine ⟨rfl, rfl, ?_, ?_⟩
  · exact List.Chain'.cons (by decide) (List.Chain'.cons (by decide) (List.chain'_singleton _))
  · decide

theorem C1_find_path_optimal_witness :
    (∃ l, IsPath gridC1 ⟨0, 0⟩ ⟨1, 1⟩ l) ∧
    ((find_path ⟨0, 0⟩ ⟨1, 1⟩ gridC1).head? = some ⟨0, 0⟩ ∧
     (find_path ⟨0, 0⟩ ⟨1, 1⟩ gridC1).getLast? = some ⟨1, 1⟩ ∧
     List.Chain' Adjacent (find_path ⟨0, 0⟩ ⟨1, 1⟩ gridC1) ∧
     (find_path ⟨0, 0⟩ ⟨1, 1⟩ gridC1).length = distSP gridC1 ⟨0, 0⟩ ⟨1, 1⟩ + 1) :=
  ⟨⟨[⟨0, 0⟩, ⟨1, 0⟩, ⟨1, 1⟩], gridC1_path⟩,
   C1_find_path_optimal gridC1 ⟨0, 0⟩ ⟨1, 1⟩
     ⟨[⟨0, 0⟩, ⟨1, 0⟩, ⟨1, 1⟩], gridC1_path⟩⟩
